/-
  Spec2Proof.lean

  A shallow embedding, in Lean 4, of the core of the Moop-wasm runtime
  (reversible bit substrate, dissipative boolean layer, homoiconic cell
  runtime, consistency checker, and the L3 actor layer with its embedded
  handler interpreter), together with theorems settling a list of claims
  about that code.

  The embedding follows the C sources:
    - src/r_layer.c / r_layer.h   (reversible substrate, gate primitives)
    - src/d_layer.c / d_layer.h   (dissipative AND/OR/XOR/NAND/NOR)
    - src/hr_ir.c / hr_ir.h       (homoiconic cell program + runtime)
    - src/consistency_checker.c   (L1/L0 behavioural consistency check)
    - src/l3_turchin.c            (actor runtime, message queues, handler
                                   interpreter)

  Modelling conventions:
    - machine integers are Nat/Int (uint32 conversions take an explicit
      mod 2^32); C bit cells (uint8 holding 0/1) are Bool;
    - heap objects owned by a runtime are lists inside the runtime
      structure; pointers to such objects are indices into those lists;
    - malloc/realloc growth always succeeds (capacities are not modelled
      where they only bound allocation, with the exception of the L3
      message ring buffer, whose head/tail/capacity arithmetic is
      modelled faithfully);
    - fallible C functions returning bool become functions returning
      Bool × State.
-/
import Mathlib

/-! ## C string helpers

Lean models of the C library string functions the sources use
(isspace/isdigit/isupper/isalnum, trimming, strncmp-based prefix tests,
strstr, atoi, atof, strpbrk).  Strings are Lean `String`s, scanned via
their character lists. -/

/-- C isspace for the default locale. -/
def cIsSpace (c : Char) : Bool :=
  c = ' ' || c = '\t' || c = '\n' || c = '\x0b' || c = '\x0c' || c = '\r'

/-- C isdigit. -/
def cIsDigit (c : Char) : Bool := '0' ≤ c && c ≤ '9'

/-- C isupper (default locale). -/
def cIsUpper (c : Char) : Bool := 'A' ≤ c && c ≤ 'Z'

/-- C islower (default locale). -/
def cIsLower (c : Char) : Bool := 'a' ≤ c && c ≤ 'z'

/-- C isalnum (default locale). -/
def cIsAlnum (c : Char) : Bool := cIsUpper c || cIsLower c || cIsDigit c

/-- The l3_trim helper of l3_turchin.c: strip leading and trailing
isspace characters. -/
def cTrim (s : String) : String :=
  String.mk (((s.data.dropWhile cIsSpace).reverse.dropWhile cIsSpace).reverse)

/-- The l3_starts_with helper of l3_turchin.c:
strncmp(str, pre, strlen(pre)) == 0. -/
def cStartsWith (s p : String) : Bool :=
  s.data.take p.data.length == p.data

/-- The l3_substring helper of l3_turchin.c: take `len` characters from
position `start`, clamped to the string (an over-long `len`, including
the huge values produced by size_t wrap-around in callers, is clamped to
the remainder of the string). -/
def cSubstring (s : String) (start len : Nat) : String :=
  String.mk ((s.data.drop start).take len)

/-- C strstr, returning the index of the first occurrence of `sub` in
`s` (strstr on an empty needle returns the haystack itself, i.e. 0). -/
def strstrIdx (s sub : String) : Option Nat :=
  (List.range (s.data.length + 1)).find?
    (fun i => (s.data.drop i).take sub.data.length == sub.data)

/-- C strchr, returning the index of the first occurrence of `c`. -/
def strchrIdx (s : String) (c : Char) : Option Nat :=
  s.data.findIdx? (· == c)

/-- C strpbrk viewed as a test: does `s` contain any character of
`cs`? -/
def strpbrkHas (s cs : String) : Bool :=
  s.data.any (fun c => cs.data.contains c)

/-- Value of a list of decimal digit characters. -/
def digitsVal (ds : List Char) : Nat :=
  ds.foldl (fun a c => 10 * a + (c.toNat - 48)) 0

/-- C atoi: skip leading whitespace, optional sign, then decimal digits.
(Overflow of the C int is undefined behaviour and is not modelled; the
inputs appearing in the claims are small.) -/
def cAtoi (s : String) : Int :=
  let cs := s.data.dropWhile cIsSpace
  match cs with
  | '-' :: t => -((digitsVal (t.takeWhile cIsDigit) : Int))
  | '+' :: t => (digitsVal (t.takeWhile cIsDigit) : Int)
  | _ => (digitsVal (cs.takeWhile cIsDigit) : Int)

/-- C atof over the decimal grammar (sign, digits, optional fraction,
optional exponent).  Values are exact rationals standing in for C
doubles; every atof value appearing in the claims below is an integer
(usually 0), where the two agree exactly.  Hex floats, inf and nan are
not modelled. -/
def cAtof (s : String) : ℚ :=
  let cs := s.data.dropWhile cIsSpace
  let sgn : ℚ := match cs with
    | '-' :: _ => -1
    | _ => 1
  let cs1 := match cs with
    | '-' :: t => t
    | '+' :: t => t
    | _ => cs
  let ip := cs1.takeWhile cIsDigit
  let cs2 := cs1.dropWhile cIsDigit
  let fp := match cs2 with
    | '.' :: t => t.takeWhile cIsDigit
    | _ => []
  let cs3 := match cs2 with
    | '.' :: t => t.dropWhile cIsDigit
    | _ => cs2
  let ed : Int := match cs3 with
    | 'e' :: t => expDigits t
    | 'E' :: t => expDigits t
    | _ => 0
  (sgn * ((digitsVal ip : ℚ) + (digitsVal fp : ℚ) / (10 : ℚ) ^ fp.length))
    * (10 : ℚ) ^ ed
where
  /-- Signed exponent digits after the `e`/`E`. -/
  expDigits (t : List Char) : Int :=
    match t with
    | '-' :: u => -((digitsVal (u.takeWhile cIsDigit) : Int))
    | '+' :: u => (digitsVal (u.takeWhile cIsDigit) : Int)
    | _ => (digitsVal (t.takeWhile cIsDigit) : Int)

/-- Conversion of a C int value to uint32_t (reduction mod 2^32). -/
def u32ofInt (i : Int) : Nat := (i % 4294967296).toNat

/-! ## R-layer: reversible substrate (src/r_layer.c)

`HRIR_Cell` is r_layer.h's homoiconic cell.  The `result`, DAG and
`inverse` pointer fields are never populated by the modelled code
(r_layer.c leaves them NULL; every R-layer gate is its own inverse via
`r_get_inverse`) and are omitted.  A runtime owns its cells; cell
pointers are indices into `cells`, and the execution history is a list
of such indices. -/

structure HRIR_Cell where
  id : Nat
  opcode : String
  args : List String
  is_reversible : Bool
  canonical_path : Option String
  executed : Bool
deriving DecidableEq, Inhabited

/-- R_Checkpoint of r_layer.h. -/
structure R_Checkpoint where
  id : Nat
  qubit_state : List Bool
  qubit_count : Nat
  execution_index : Nat
  label : Option String
  timestamp : Nat
deriving DecidableEq, Inhabited

/-- R_Runtime with its R_Memory inlined (the C runtime holds a single
R_Memory pointer; capacities of the growable arrays are not modelled). -/
structure R_Runtime where
  instance_id : Nat
  next_cell_id : Nat
  qubits : List Bool
  cells : List HRIR_Cell
  checkpoints : List R_Checkpoint
  execution_history : List Nat
deriving DecidableEq, Inhabited

/-- r_runtime_init: `qubit_count` zeroed bits, empty cell, checkpoint and
history stores. -/
def r_runtime_init (qubit_count instance_id : Nat) : R_Runtime :=
  { instance_id := instance_id
    next_cell_id := 0
    qubits := List.replicate qubit_count false
    cells := []
    checkpoints := []
    execution_history := [] }

/-- r_create_cell: append a fresh, unexecuted, reversible cell; returns
the updated runtime and the new cell's index (the C function returns the
cell pointer). -/
def r_create_cell (rt : R_Runtime) (opcode : String) (args : List String)
    (canonical_path : Option String) : R_Runtime × Nat :=
  let cell : HRIR_Cell :=
    { id := rt.next_cell_id
      opcode := opcode
      args := args
      is_reversible := true
      canonical_path := canonical_path
      executed := false }
  ({ rt with
      next_cell_id := rt.next_cell_id + 1
      cells := rt.cells ++ [cell] }, rt.cells.length)

/-- r_execute_CCNOT (Toffoli): if bits a and b are both set, flip bit c.
Out-of-range indices fail with no mutation. -/
def r_execute_CCNOT (rt : R_Runtime) (a b c : Nat) : Bool × R_Runtime :=
  if a ≥ rt.qubits.length ∨ b ≥ rt.qubits.length ∨ c ≥ rt.qubits.length then
    (false, rt)
  else if rt.qubits.getD a false ∧ rt.qubits.getD b false then
    (true, { rt with qubits := rt.qubits.set c (!(rt.qubits.getD c false)) })
  else
    (true, rt)

/-- r_execute_CNOT: if bit a is set, flip bit b. -/
def r_execute_CNOT (rt : R_Runtime) (a b : Nat) : Bool × R_Runtime :=
  if a ≥ rt.qubits.length ∨ b ≥ rt.qubits.length then
    (false, rt)
  else if rt.qubits.getD a false then
    (true, { rt with qubits := rt.qubits.set b (!(rt.qubits.getD b false)) })
  else
    (true, rt)

/-- r_execute_NOT: unconditionally flip bit a. -/
def r_execute_NOT (rt : R_Runtime) (a : Nat) : Bool × R_Runtime :=
  if a ≥ rt.qubits.length then
    (false, rt)
  else
    (true, { rt with qubits := rt.qubits.set a (!(rt.qubits.getD a false)) })

/-- r_execute_SWAP: exchange bits a and b. -/
def r_execute_SWAP (rt : R_Runtime) (a b : Nat) : Bool × R_Runtime :=
  if a ≥ rt.qubits.length ∨ b ≥ rt.qubits.length then
    (false, rt)
  else
    let qa := rt.qubits.getD a false
    let qb := rt.qubits.getD b false
    (true, { rt with qubits := (rt.qubits.set a qb).set b qa })

/-- r_read_qubit: out-of-range reads return 0. -/
def r_read_qubit (rt : R_Runtime) (index : Nat) : Bool :=
  if index ≥ rt.qubits.length then false else rt.qubits.getD index false

/-- r_write_qubit (value is masked to one bit in C; the model stores a
Bool directly). -/
def r_write_qubit (rt : R_Runtime) (index : Nat) (value : Bool) :
    Bool × R_Runtime :=
  if index ≥ rt.qubits.length then (false, rt)
  else (true, { rt with qubits := rt.qubits.set index value })

/-- r_execute_cell: refuse null or already-executed cells; parse up to
three arguments with atoi (cast to uint32); dispatch on the opcode and
argument count; on success mark the cell executed and append it to the
execution history. -/
def r_execute_cell (rt : R_Runtime) (ci : Nat) : Bool × R_Runtime :=
  match rt.cells.get? ci with
  | none => (false, rt)
  | some cell =>
    if cell.executed then (false, rt)
    else
      let args := (cell.args.take 3).map (fun s => u32ofInt (cAtoi s))
      let a0 := args.getD 0 0
      let a1 := args.getD 1 0
      let a2 := args.getD 2 0
      let res :=
        if cell.opcode == "CCNOT" ∧ cell.args.length = 3 then
          r_execute_CCNOT rt a0 a1 a2
        else if cell.opcode == "CNOT" ∧ cell.args.length = 2 then
          r_execute_CNOT rt a0 a1
        else if cell.opcode == "NOT" ∧ cell.args.length = 1 then
          r_execute_NOT rt a0
        else if cell.opcode == "SWAP" ∧ cell.args.length = 2 then
          r_execute_SWAP rt a0 a1
        else (false, rt)
      if res.1 then
        (true,
          { res.2 with
              cells := res.2.cells.set ci { cell with executed := true }
              execution_history := res.2.execution_history ++ [ci] })
      else (false, res.2)

/-- r_execute_inverse: all R-layer gates are self-inverse, so executing
the inverse is executing the cell again. -/
def r_execute_inverse (rt : R_Runtime) (ci : Nat) : Bool × R_Runtime :=
  r_execute_cell rt ci

/-- The loop body of r_rewind_to_index: with countdown m+1 the loop
variable is i = k+m+1 and the cell executed is execution_history[i-1] =
execution_history[k+m]; the returned success flag of each inverse
execution is discarded, exactly as in the C source. -/
def r_rewind_loop (k : Nat) : Nat → R_Runtime → R_Runtime
  | 0, rt => rt
  | m + 1, rt =>
      r_rewind_loop k m
        (r_execute_inverse rt (rt.execution_history.getD (k + m) 0)).2

/-- r_rewind_to_index: fail if the index exceeds the execution count;
otherwise run inverses for history entries from the top down to index k
(ignoring their results) and truncate the execution count to k. -/
def r_rewind_to_index (rt : R_Runtime) (k : Nat) : Bool × R_Runtime :=
  if k > rt.execution_history.length then (false, rt)
  else
    let rt2 := r_rewind_loop k (rt.execution_history.length - k) rt
    (true, { rt2 with execution_history := rt2.execution_history.take k })

/-! ## D-layer: dissipative gates (src/d_layer.c) -/

/-- D_Runtime of d_layer.h: an R-layer substrate plus the ancilla
region's start and size. -/
structure D_Runtime where
  r_runtime : R_Runtime
  ancilla_start : Nat
  ancilla_count : Nat
deriving DecidableEq, Inhabited

/-- d_runtime_init: the substrate holds qubit_count + ancilla_count
bits; the ancilla region starts right after the user bits. -/
def d_runtime_init (qubit_count ancilla_count instance_id : Nat) : D_Runtime :=
  { r_runtime := r_runtime_init (qubit_count + ancilla_count) instance_id
    ancilla_start := qubit_count
    ancilla_count := ancilla_count }

/-- d_execute_AND: clear the result bit (flip it if set), then Toffoli
a b result.  The returned flag is the Toffoli's. -/
def d_execute_AND (rt : D_Runtime) (a b result : Nat) : Bool × D_Runtime :=
  let r0 := rt.r_runtime
  let r1 := if r_read_qubit r0 result then (r_execute_NOT r0 result).2 else r0
  let res := r_execute_CCNOT r1 a b result
  (res.1, { rt with r_runtime := res.2 })

/-- d_execute_OR: De Morgan via the first two ancilla bits — copy and
invert a and b into the ancillas, AND them into result, invert result.
Requires two ancillas; returns true unconditionally otherwise, ignoring
the outcomes of the inner operations. -/
def d_execute_OR (rt : D_Runtime) (a b result : Nat) : Bool × D_Runtime :=
  if rt.ancilla_count < 2 then (false, rt)
  else
    let ancilla_a := rt.ancilla_start
    let ancilla_b := rt.ancilla_start + 1
    let r1 := (r_write_qubit rt.r_runtime ancilla_a
                (r_read_qubit rt.r_runtime a)).2
    let r2 := (r_execute_NOT r1 ancilla_a).2
    let r3 := (r_write_qubit r2 ancilla_b (r_read_qubit r2 b)).2
    let r4 := (r_execute_NOT r3 ancilla_b).2
    let d1 := (d_execute_AND { rt with r_runtime := r4 }
                ancilla_a ancilla_b result).2
    let r5 := (r_execute_NOT d1.r_runtime result).2
    (true, { d1 with r_runtime := r5 })

/-- d_execute_NAND: AND then flip result; returns true unconditionally. -/
def d_execute_NAND (rt : D_Runtime) (a b result : Nat) : Bool × D_Runtime :=
  let d1 := (d_execute_AND rt a b result).2
  let r1 := (r_execute_NOT d1.r_runtime result).2
  (true, { d1 with r_runtime := r1 })

/-- d_execute_NOR: OR then flip result; returns true unconditionally. -/
def d_execute_NOR (rt : D_Runtime) (a b result : Nat) : Bool × D_Runtime :=
  let d1 := (d_execute_OR rt a b result).2
  let r1 := (r_execute_NOT d1.r_runtime result).2
  (true, { d1 with r_runtime := r1 })

/-- d_execute_XOR: clear result, then CNOT a result and CNOT b result;
returns true unconditionally. -/
def d_execute_XOR (rt : D_Runtime) (a b result : Nat) : Bool × D_Runtime :=
  let r0 := rt.r_runtime
  let r1 := if r_read_qubit r0 result then (r_execute_NOT r0 result).2 else r0
  let r2 := (r_execute_CNOT r1 a result).2
  let r3 := (r_execute_CNOT r2 b result).2
  (true, { rt with r_runtime := r3 })

/-- Concrete one-bit runtime whose single cell NOT(0) has been executed
(bit array [1], history [0]). -/
def c10_rt : R_Runtime :=
  (r_execute_cell (r_create_cell (r_runtime_init 1 0) "NOT" ["0"] none).1 0).2

/-- The executed cell of `c10_rt`. -/
def c10_cell : HRIR_Cell :=
  { id := 0, opcode := "NOT", args := ["0"], is_reversible := true,
    canonical_path := none, executed := true }

/-- Concrete scenario for C2: a fresh one-bit runtime with a single cell
NOT(0). -/
def c2_rt0 : R_Runtime := (r_create_cell (r_runtime_init 1 0) "NOT" ["0"] none).1

/-- The runtime after executing the NOT(0) cell: bit array [1],
execution history [0]. -/
def c2_rt1 : R_Runtime := (r_execute_cell c2_rt0 0).2

/-! ## L1 HRIR: homoiconic cell program and runtime (src/hr_ir.c)

hr_ir.h declares its own HRIR_Cell struct, distinct from r_layer.h's; it
lives in the `HrIr` namespace here.  The `inverse` pointer and the meta
fields (source_location, line_number, canonical_path) are not read by
any of the functions modelled below (stepping, undo, completion and the
behavioural consistency check) and are omitted; the `tape` of
HRIR_Program is never populated by the C code and is omitted too. -/

namespace HrIr

/-- hr_ir.h HRIR_Cell (execution-relevant fields). -/
structure HRIR_Cell where
  id : Nat
  opcode : String
  args : List String
  is_reversible : Bool
  executed : Bool
  result : Option String
deriving DecidableEq, Inhabited

end HrIr

/-- hr_ir.h HRIR_Program. -/
structure HRIR_Program where
  cells : List HrIr.HRIR_Cell
  pc : Nat
  source_name : Option String
  next_id : Nat
deriving DecidableEq, Inhabited

/-- hr_ir.h HRIR_Runtime; it owns the program it executes (the C runtime
holds a pointer to the caller's program). -/
structure HRIR_Runtime where
  program : HRIR_Program
  checkpoint : Nat
  steps_executed : Nat
  rollbacks : Nat
deriving DecidableEq, Inhabited

/-- hr_ir_create_cell: fresh reversible, unexecuted cell (ids are
assigned by hr_ir_add_cell). -/
def hr_ir_create_cell (opcode : String) (args : List String) : HrIr.HRIR_Cell :=
  { id := 0, opcode := opcode, args := args, is_reversible := true,
    executed := false, result := none }

/-- hr_ir_from_d_term_operation: like hr_ir_create_cell but marked
irreversible. -/
def hr_ir_from_d_term_operation (operation : String) (args : List String) :
    HrIr.HRIR_Cell :=
  { hr_ir_create_cell operation args with is_reversible := false }

/-- hr_ir_create_program: empty cell list, pc 0, ids start at 1. -/
def hr_ir_create_program (source_name : Option String) : HRIR_Program :=
  { cells := [], pc := 0, source_name := source_name, next_id := 1 }

/-- hr_ir_add_cell: assign the next monotonic id and append.  (The C
function also derives an inverse cell for reversible arithmetic opcodes;
the inverse pointer is not part of this model since no modelled function
reads it.) -/
def hr_ir_add_cell (program : HRIR_Program) (cell : HrIr.HRIR_Cell) :
    Bool × HRIR_Program :=
  (true, { program with
    cells := program.cells ++ [{ cell with id := program.next_id }]
    next_id := program.next_id + 1 })

/-- hr_ir_create_runtime. -/
def hr_ir_create_runtime (program : HRIR_Program) : HRIR_Runtime :=
  { program := program, checkpoint := 0, steps_executed := 0, rollbacks := 0 }

/-- hr_ir_step: fails past the end; otherwise marks the cell at pc as
executed with placeholder result "executed" and advances pc. -/
def hr_ir_step (runtime : HRIR_Runtime) : Bool × HRIR_Runtime :=
  if runtime.program.pc ≥ runtime.program.cells.length then (false, runtime)
  else
    let cell := runtime.program.cells.getD runtime.program.pc default
    (true, { runtime with
      program := { runtime.program with
        cells := runtime.program.cells.set runtime.program.pc
          { cell with executed := true, result := some "executed" }
        pc := runtime.program.pc + 1 }
      steps_executed := runtime.steps_executed + 1 })

/-- hr_ir_undo: fails at pc 0; otherwise decrements pc and clears the
executed/result fields of the cell at the new pc.  (steps_executed is a
size_t in C; the Nat subtraction here matches it whenever the counter is
positive, which holds in every modelled flow.) -/
def hr_ir_undo (runtime : HRIR_Runtime) : Bool × HRIR_Runtime :=
  if runtime.program.pc = 0 then (false, runtime)
  else
    let pc2 := runtime.program.pc - 1
    let cell := runtime.program.cells.getD pc2 default
    (true, { runtime with
      program := { runtime.program with
        cells := runtime.program.cells.set pc2
          { cell with executed := false, result := none }
        pc := pc2 }
      steps_executed := runtime.steps_executed - 1
      rollbacks := runtime.rollbacks + 1 })

/-- hr_ir_is_complete. -/
def hr_ir_is_complete (runtime : HRIR_Runtime) : Bool :=
  runtime.program.pc ≥ runtime.program.cells.length

/-! ## Consistency checker (src/consistency_checker.c, claim C7) -/

/-- ConsistencyResult of consistency_checker.c. -/
structure ConsistencyResult where
  is_consistent : Bool
  error_message : Option String
  operations_checked : Nat
  side_effects_verified : Nat
deriving DecidableEq, Inhabited

/-- ExpectedSideEffect of consistency_checker.c. -/
structure ExpectedSideEffect where
  operation : String
  args : List String
  should_succeed : Bool
deriving DecidableEq, Inhabited

/-- The main loop of check_l1_l0_consistency: `remaining` counts the
iterations left (the C loop runs i from 0 to cell_count-1; the cell
count never changes during the loop), `i` is the loop index,
`effect_index` the cursor into the expected side effects and `res` the
accumulated result.  Any failure returns immediately (the C `break`)
with the runtime at that point. -/
def check_loop (effects : List ExpectedSideEffect) :
    Nat → HRIR_Runtime → Nat → Nat → ConsistencyResult →
    ConsistencyResult × HRIR_Runtime
  | 0, rt, _, _, res => (res, rt)
  | remaining + 1, rt, i, effect_index, res =>
    let res := { res with operations_checked := res.operations_checked + 1 }
    -- hr_ir_get_cell returns NULL exactly when the index is out of range,
    -- so the C `if (!cell) continue` branch is the out-of-range case
    if i ≥ rt.program.cells.length then
      check_loop effects remaining rt (i + 1) effect_index res
    else
      let cell := rt.program.cells.getD i default
      let step := hr_ir_step rt
        if cell.is_reversible then
          if step.1 = false then
            ({ res with
                is_consistent := false
                error_message := some "R-term operation failed" }, step.2)
          else
            let undo := hr_ir_undo step.2
            if undo.1 = false then
              ({ res with
                  is_consistent := false
                  error_message := some "R-term undo failed" }, undo.2)
            else
              let redo := hr_ir_step undo.2
              if redo.1 = false then
                ({ res with
                    is_consistent := false
                    error_message := some "R-term redo failed" }, redo.2)
              else check_loop effects remaining redo.2 (i + 1) effect_index res
        else
          if effect_index < effects.length then
            let expected := effects.getD effect_index default
            if cell.opcode == expected.operation then
              let res := { res with
                side_effects_verified := res.side_effects_verified + 1 }
              if step.1 ≠ expected.should_succeed then
                ({ res with
                    is_consistent := false
                    error_message := some "D-term side effect mismatch" },
                  step.2)
              else check_loop effects remaining step.2 (i + 1) (effect_index + 1)
                res
            else check_loop effects remaining step.2 (i + 1) (effect_index + 1)
              res
          else check_loop effects remaining step.2 (i + 1) effect_index res

/-- check_l1_l0_consistency: create a runtime over the program, replay
it against the expected side effects, then require completion. -/
def check_l1_l0_consistency (program : HRIR_Program)
    (expected_effects : List ExpectedSideEffect) : ConsistencyResult :=
  let runtime := hr_ir_create_runtime program
  let out := check_loop expected_effects program.cells.length runtime 0 0
    { is_consistent := true
      error_message := none
      operations_checked := 0
      side_effects_verified := 0 }
  if out.1.is_consistent then
    if hr_ir_is_complete out.2 = false then
      { out.1 with
          is_consistent := false
          error_message := some "Program did not complete" }
    else out.1
  else out.1

/-- The behavioural consistency check as the amended claim describes it
(the spec-side definition, compared with the embedded checker below):
walk the cells in order; reversible cells always replay cleanly;
each irreversible cell is compared with the next expected effect, and —
since simulated steps of in-range cells always succeed — the check
aborts immediately, reporting "D-term side effect mismatch" as the first
failure and checking no further cells, exactly when the operation name
matches and the effect declares should_succeed = false; an irreversible
cell whose operation name does not match the next expected effect only
consumes that effect (with a console warning) and checking continues. -/
def check_spec_loop :
    List HrIr.HRIR_Cell → List ExpectedSideEffect → Nat → Nat → Nat →
    ConsistencyResult
  | [], _, _, ops, ver =>
    { is_consistent := true
      error_message := none
      operations_checked := ops
      side_effects_verified := ver }
  | cell :: rest, effects, k, ops, ver =>
    if cell.is_reversible then check_spec_loop rest effects k (ops + 1) ver
    else if k < effects.length then
      if cell.opcode == (effects.getD k default).operation then
        if (effects.getD k default).should_succeed then
          check_spec_loop rest effects (k + 1) (ops + 1) (ver + 1)
        else
          { is_consistent := false
            error_message := some "D-term side effect mismatch"
            operations_checked := ops + 1
            side_effects_verified := ver + 1 }
      else check_spec_loop rest effects (k + 1) (ops + 1) ver
    else check_spec_loop rest effects k (ops + 1) ver

/-- Entry point of the spec-side fail-fast description. -/
def check_spec (cells : List HrIr.HRIR_Cell)
    (effects : List ExpectedSideEffect) : ConsistencyResult :=
  check_spec_loop cells effects 0 0 0

/-- One-cell program with a single irreversible "print" cell, used for
the C7 counterexample and witness. -/
def c7_program : HRIR_Program :=
  (hr_ir_add_cell (hr_ir_create_program (some "c7"))
    (hr_ir_from_d_term_operation "print" ["done"])).2

/-- Expected-effect list declaring a differently named operation. -/
def c7_effects : List ExpectedSideEffect :=
  [{ operation := "write", args := ["done"], should_succeed := true }]

/-- L3_Message of l3_turchin.h. -/
structure L3_Message where
  event : String
  data : String
  timestamp : Nat
deriving DecidableEq, Inhabited

/-- L3_MessageQueue of l3_turchin.h: a circular buffer of message slots. -/
structure L3_MessageQueue where
  messages : List (Option L3_Message)
  count : Nat
  capacity : Nat
  head : Nat
  tail : Nat
deriving DecidableEq, Inhabited

/-- l3_queue_create: capacity 64, empty. -/
def l3_queue_create : L3_MessageQueue :=
  { messages := List.replicate 64 none, count := 0, capacity := 64,
    head := 0, tail := 0 }

/-- The expansion step of l3_queue_push: double the capacity, copying
the live entries to the front of a fresh slot array (slots beyond the
live entries are fresh malloc memory, modelled as `none`). -/
def l3_queue_expanded (queue : L3_MessageQueue) : L3_MessageQueue :=
  { messages :=
      ((List.range queue.count).map
        (fun i => queue.messages.getD ((queue.head + i) % queue.capacity)
          none))
      ++ List.replicate (queue.capacity * 2 - queue.count) none
    count := queue.count
    capacity := queue.capacity * 2
    head := 0
    tail := queue.count }

/-- l3_queue_push: double the capacity when full, then store the message
at the tail and advance it circularly. -/
def l3_queue_push (queue : L3_MessageQueue) (event data : String)
    (timestamp : Nat) : L3_MessageQueue :=
  let queue :=
    if queue.count ≥ queue.capacity then l3_queue_expanded queue else queue
  let msg : L3_Message :=
    { event := event, data := data, timestamp := timestamp }
  { queue with
    messages := queue.messages.set queue.tail (some msg)
    tail := (queue.tail + 1) % queue.capacity
    count := queue.count + 1 }

/-- l3_queue_pop: take the message at the head and advance it circularly
(returns NULL — none — on an empty queue). -/
def l3_queue_pop (queue : L3_MessageQueue) : Option L3_Message × L3_MessageQueue :=
  if queue.count = 0 then (none, queue)
  else
    (queue.messages.getD queue.head none,
      { queue with
        head := (queue.head + 1) % queue.capacity
        count := queue.count - 1 })

/-- Well-formedness of a ring buffer: positive capacity matching the
slot-array length, head in range, tail derived from head and count, and
every live slot filled. -/
def QueueValid (q : L3_MessageQueue) : Prop :=
  0 < q.capacity ∧ q.messages.length = q.capacity ∧ q.head < q.capacity ∧
  q.count ≤ q.capacity ∧ q.tail = (q.head + q.count) % q.capacity ∧
  ∀ i, i < q.count →
    (q.messages.getD ((q.head + i) % q.capacity) none).isSome = true

instance (q : L3_MessageQueue) : Decidable (QueueValid q) := by
  unfold QueueValid
  infer_instance

/-- The abstract FIFO content of a ring buffer: live slots from head to
tail in queue order. -/
def queueToList (q : L3_MessageQueue) : List L3_Message :=
  (List.range q.count).map
    (fun i => (q.messages.getD ((q.head + i) % q.capacity) none).getD default)

/-- L3_Handler of l3_turchin.h. -/
structure L3_Handler where
  event_name : String
  body_code : String
deriving DecidableEq, Inhabited

/-- L3_Actor of l3_turchin.h: the state is the ordered key/value list of
L3_ActorState. -/
structure L3_Actor where
  id : Int
  name : String
  role : String
  state : List (String × String)
  handlers : List L3_Handler
deriving DecidableEq, Inhabited

/-- L3_ActorDefinition of l3_turchin.h. -/
structure L3_ActorDefinition where
  name : String
  role : String
  initial_state : List (String × String)
  handlers : List L3_Handler
deriving DecidableEq, Inhabited

/-- L3_ActorRuntime of l3_turchin.h: actors and their message queues are
parallel arrays. -/
structure L3_ActorRuntime where
  actors : List L3_Actor
  message_queues : List L3_MessageQueue
  next_actor_id : Int
  running : Bool
deriving DecidableEq, Inhabited

/-- l3_state_set: update the first matching key in place, else append. -/
def l3_state_set : List (String × String) → String → String →
    List (String × String)
  | [], key, value => [(key, value)]
  | (k, v) :: rest, key, value =>
    if k == key then (k, value) :: rest
    else (k, v) :: l3_state_set rest key value

/-- l3_state_get: first matching key (NULL — none — when absent). -/
def l3_state_get : List (String × String) → String → Option String
  | [], _ => none
  | (k, v) :: rest, key => if k == key then some v else l3_state_get rest key

/-- l3_runtime_init. -/
def l3_runtime_init : L3_ActorRuntime :=
  { actors := [], message_queues := [], next_actor_id := 1, running := false }

/-- l3_spawn_actor: copy the definition's state and handlers into a new
actor with the next monotonic id and a fresh queue; returns the id. -/
def l3_spawn_actor (runtime : L3_ActorRuntime) (defn : L3_ActorDefinition) :
    Int × L3_ActorRuntime :=
  let actor : L3_Actor :=
    { id := runtime.next_actor_id
      name := defn.name
      role := defn.role
      state := defn.initial_state.foldl
        (fun s kv => l3_state_set s kv.1 kv.2) []
      handlers := defn.handlers }
  (actor.id,
    { runtime with
      actors := runtime.actors ++ [actor]
      message_queues := runtime.message_queues ++ [l3_queue_create]
      next_actor_id := runtime.next_actor_id + 1 })

/-- l3_send_message: find the actor by id and push onto its queue (the
timestamp is the external clock input). -/
def l3_send_message (runtime : L3_ActorRuntime) (actor_id : Int)
    (event data : String) (ts : Nat) : Bool × L3_ActorRuntime :=
  match runtime.actors.findIdx? (fun a => a.id == actor_id) with
  | none => (false, runtime)
  | some i =>
    (true, { runtime with
      message_queues := runtime.message_queues.set i
        (l3_queue_push (runtime.message_queues.getD i default) event data ts) })

/-- l3_get_actor_by_name: id of the first actor with the given name, -1
when absent. -/
def l3_get_actor_by_name (runtime : L3_ActorRuntime) (name : String) : Int :=
  match runtime.actors.find? (fun a => a.name == name) with
  | some a => a.id
  | none => -1

/-- One iteration of the l3_tick loop for actor index i: pop at most one
message from the actor's queue; when a message comes off, run the first
matching handler through the handler-execution effect `f` (which models
l3_execute_handler together with the execution-context construction and
the write-back of actor state; it receives the runtime after the pop,
the actor index, the handler body and the message data).  Returns the
processed (index, message) event, if any. -/
def l3_tick_visit (f : L3_ActorRuntime → Nat → String → String → L3_ActorRuntime)
    (rt : L3_ActorRuntime) (i : Nat) :
    Option (Nat × L3_Message) × L3_ActorRuntime :=
  let queue := rt.message_queues.getD i default
  if queue.count > 0 then
    let pop := l3_queue_pop queue
    match pop.1 with
    | some msg =>
      let rt1 := { rt with message_queues := rt.message_queues.set i pop.2 }
      let actor := rt.actors.getD i default
      let rt2 := match actor.handlers.find?
          (fun h => h.event_name == msg.event) with
        | some handler => f rt1 i handler.body_code msg.data
        | none => rt1
      (some (i, msg), rt2)
    | none => (none, { rt with message_queues := rt.message_queues.set i pop.2 })
  else (none, rt)

/-- The l3_tick loop from actor index i, with the remaining iteration
count as a structural counter (the C loop bound, runtime->actor_count,
cannot change during a tick: handler bodies cannot spawn actors). -/
def l3_tick_aux (f : L3_ActorRuntime → Nat → String → String → L3_ActorRuntime) :
    Nat → Nat → L3_ActorRuntime → List (Nat × L3_Message) × L3_ActorRuntime
  | 0, _, rt => ([], rt)
  | fuel + 1, i, rt =>
    if i < rt.actors.length then
      let v := l3_tick_visit f rt i
      let rest := l3_tick_aux f fuel (i + 1) v.2
      (match v.1 with
       | some e => e :: rest.1
       | none => rest.1, rest.2)
    else ([], rt)

/-- l3_tick parameterised by the handler-execution effect, returning the
(actor index, message) events processed in order. -/
def l3_tick_with (f : L3_ActorRuntime → Nat → String → String → L3_ActorRuntime)
    (rt : L3_ActorRuntime) : List (Nat × L3_Message) × L3_ActorRuntime :=
  l3_tick_aux f rt.actors.length 0 rt

/-- The runtime state on arrival at actor index k during a tick (the
first k visits performed). -/
def l3_tick_upto (f : L3_ActorRuntime → Nat → String → String → L3_ActorRuntime)
    (k : Nat) (rt : L3_ActorRuntime) : List (Nat × L3_Message) × L3_ActorRuntime :=
  l3_tick_aux f k 0 rt

/-- All message queues of a runtime are valid ring buffers. -/
def QueuesWF (rt : L3_ActorRuntime) : Prop :=
  ∀ j, j < rt.message_queues.length →
    QueueValid (rt.message_queues.getD j default)

instance (rt : L3_ActorRuntime) : Decidable (QueuesWF rt) := by
  unfold QueuesWF
  infer_instance

/-- Identity handler effect (an actor definition with no handlers, or
handlers whose bodies do nothing): used to instantiate the tick theorem
on a concrete runtime. -/
def c6_f : L3_ActorRuntime → Nat → String → String → L3_ActorRuntime :=
  fun rt _ _ _ => rt

/-- Concrete runtime: one spawned actor with two messages queued. -/
def c6_rt : L3_ActorRuntime :=
  (l3_send_message
    (l3_send_message
      (l3_spawn_actor l3_runtime_init
        { name := "A", role := "r", initial_state := [], handlers := [] }).2
      1 "ping" "1" 5).2
    1 "ping" "2" 6).2

/-- L3_ExecutionContext of l3_turchin.h. -/
structure L3_ExecutionContext where
  state : List (String × String)
  data : String
  runtime : L3_ActorRuntime
  actor_id : Int
  locals : List (String × String)
deriving Inhabited

/-- l3_is_number scan: digits with at most one dot, at least one digit. -/
def l3_is_number_scan : List Char → Bool → Bool → Bool
  | [], has_digit, _ => has_digit
  | c :: t, has_digit, has_dot =>
    if cIsDigit c then l3_is_number_scan t true has_dot
    else if c = '.' ∧ has_dot = false then l3_is_number_scan t has_digit true
    else false

/-- l3_is_number: optional sign, then digits with at most one dot. -/
def l3_is_number (s : String) : Bool :=
  match s.data with
  | [] => false
  | '-' :: t => l3_is_number_scan t false false
  | '+' :: t => l3_is_number_scan t false false
  | cs => l3_is_number_scan cs false false

/-- l3_set_local: update the first matching local in place, else append
(the same update-or-append logic as l3_state_set). -/
def l3_set_local (ctx : L3_ExecutionContext) (key value : String) :
    L3_ExecutionContext :=
  { ctx with locals := l3_state_set ctx.locals key value }

/-- l3_get_local (the same lookup logic as l3_state_get). -/
def l3_get_local (ctx : L3_ExecutionContext) (key : String) : Option String :=
  l3_state_get ctx.locals key

/-- l3_evaluate_expression: string/number/boolean literals, the
arithmetic branch (oracle, see above), state fields, handler locals, and
the original expression as a last resort. -/
def l3_evaluate_expression
    (arith : String → L3_ExecutionContext → Option String)
    (expr : String) (ctx : L3_ExecutionContext) : String :=
  let trimmed := cTrim expr
  if trimmed.data.head? = some '"' ∨ trimmed.data.head? = some '\'' then
    cSubstring trimmed 1 (trimmed.length - 2)
  else if l3_is_number trimmed then trimmed
  else if trimmed == "true" || trimmed == "false" then trimmed
  else
    let viaArith : Option String :=
      if strpbrkHas trimmed "+-*/()" then arith trimmed ctx else none
    match viaArith with
    | some r => r
    | none =>
      if cStartsWith trimmed "state." then
        match l3_state_get ctx.state (trimmed.drop 6) with
        | some v => v
        | none => "0"
      else
        match l3_get_local ctx trimmed with
        | some v => v
        | none => expr

/-- The operator scan of l3_evaluate_condition: the first operator of
the fixed list that occurs anywhere in the condition splits it at its
first occurrence; both operand substrings are trimmed. -/
def l3_find_comparison_go (trimmed : String) :
    List String → Option (String × String × String)
  | [] => none
  | op :: rest =>
    match strstrIdx trimmed op with
    | some pos =>
      some (op, cTrim (cSubstring trimmed 0 pos),
        cTrim (trimmed.drop (pos + op.data.length)))
    | none => l3_find_comparison_go trimmed rest

/-- The comparison split with the source's operator order
"<=" ">=" "==" "!=" "<" ">". -/
def l3_find_comparison (trimmed : String) :
    Option (String × String × String) :=
  l3_find_comparison_go trimmed ["<=", ">=", "==", "!=", "<", ">"]

/-- l3_evaluate_condition: split on the first listed comparison
operator; compare the evaluated operands numerically via atof, with
equality also accepting string equality (and inequality additionally
requiring string inequality); a condition without an operator is true
when it evaluates to "true" or to a string with non-zero atoi value. -/
def l3_evaluate_condition
    (arith : String → L3_ExecutionContext → Option String)
    (condition : String) (ctx : L3_ExecutionContext) : Bool :=
  let trimmed := cTrim condition
  match l3_find_comparison trimmed with
  | some (op, lstr, rstr) =>
    let left_val := l3_evaluate_expression arith lstr ctx
    let right_val := l3_evaluate_expression arith rstr ctx
    let left_num := cAtof left_val
    let right_num := cAtof right_val
    if op == "<" then decide (left_num < right_num)
    else if op == ">" then decide (left_num > right_num)
    else if op == "<=" then decide (left_num ≤ right_num)
    else if op == ">=" then decide (left_num ≥ right_num)
    else if op == "==" then
      (decide (left_num = right_num) || (left_val == right_val))
    else if op == "!=" then
      (decide (left_num ≠ right_num) && !(left_val == right_val))
    else false
  | none =>
    let val := l3_evaluate_expression arith trimmed ctx
    (val == "true") || !(cAtoi val == 0)

/-- l3_get_indent: count of leading space characters. -/
def l3_get_indent (line : String) : Nat :=
  (line.data.takeWhile (fun c => c = ' ')).length

/-- l3_execute_line: a single non-control statement.  The self-message
and log branches only print; sends go through l3_send_message with the
modelled clock value 0. -/
def l3_execute_line (arith : String → L3_ExecutionContext → Option String)
    (trimmed : String) (ctx : L3_ExecutionContext) : L3_ExecutionContext :=
  if cStartsWith trimmed "self ->" then ctx
  else if (strstrIdx trimmed "->").isSome ∧
      cIsUpper (trimmed.data.headD '\x00') then
    match strstrIdx trimmed "->" with
    | some arrow_pos =>
      let target_trimmed := cTrim (cSubstring trimmed 0 arrow_pos)
      let message_part := cTrim (trimmed.drop (arrow_pos + 2))
      let message_name :=
        match strchrIdx message_part ' ' with
        | some sp => cSubstring message_part 0 sp
        | none => message_part
      let target_id := l3_get_actor_by_name ctx.runtime target_trimmed
      if target_id = -1 then ctx
      else
        { ctx with runtime :=
            (l3_send_message ctx.runtime target_id message_name ctx.data 0).2 }
    | none => ctx
  else if cStartsWith trimmed "let " then
    let rest := trimmed.drop 4
    match strstrIdx rest "->" with
    | some arrow_pos =>
      let var_trimmed := cTrim (cSubstring rest 0 arrow_pos)
      let value := l3_evaluate_expression arith (cTrim (rest.drop (arrow_pos + 2))) ctx
      l3_set_local ctx var_trimmed value
    | none => ctx
  else if (strstrIdx trimmed "->").isSome ∧ ¬cStartsWith trimmed "let " ∧
      ¬cStartsWith trimmed "if " ∧ ¬cStartsWith trimmed "while " then
    match strstrIdx trimmed "->" with
    | some arrow_pos =>
      let target_trimmed := cTrim (cSubstring trimmed 0 arrow_pos)
      let value := l3_evaluate_expression arith (cTrim (trimmed.drop (arrow_pos + 2))) ctx
      if cStartsWith target_trimmed "state." then
        { ctx with state := l3_state_set ctx.state (target_trimmed.drop 6) value }
      else l3_set_local ctx target_trimmed value
    | none => ctx
  else ctx

/-- The block-end scan shared by the if/while/for cases of
l3_execute_block: advance j past the body, recording the first nonempty
line's indent, until a nonempty line dedents below it (or the lines run
out).  Fuel-counted so the definition is structural; the callers supply
exactly line_count - start fuel. -/
def l3_scan_block_go (lines : List String) (line_count : Nat) :
    Nat → Nat → Option Nat → Option Nat × Nat
  | 0, j, cur => (cur, j)
  | fuel + 1, j, cur =>
    if j < line_count then
      let next_trimmed := cTrim (lines.getD j "")
      let next_indent := l3_get_indent (lines.getD j "")
      if next_trimmed.length > 0 then
        match cur with
        | none => l3_scan_block_go lines line_count fuel (j + 1) (some next_indent)
        | some bi =>
          if next_indent < bi then (cur, j)
          else l3_scan_block_go lines line_count fuel (j + 1) cur
      else l3_scan_block_go lines line_count fuel (j + 1) cur
    else (cur, j)

/-- Block-end scan from a start index: returns the body indent (none
when the body is empty) and the end index. -/
def l3_scan_block (lines : List String) (start line_count : Nat) :
    Option Nat × Nat :=
  l3_scan_block_go lines line_count (line_count - start) start none

/-- The scan never moves backwards. -/
theorem l3_scan_block_go_ge (lines : List String) (line_count : Nat) :
    ∀ fuel j cur, j ≤ (l3_scan_block_go lines line_count fuel j cur).2 := by
  intro fuel
  induction fuel with
  | zero => intro j cur; simp [l3_scan_block_go]
  | succ n ih =>
    intro j cur
    simp only [l3_scan_block_go]
    split
    · split
      · match cur with
        | none => exact le_trans (Nat.le_succ j) (ih (j + 1) _)
        | some bi =>
          simp only
          split
          · simp
          · exact le_trans (Nat.le_succ j) (ih (j + 1) _)
      · exact le_trans (Nat.le_succ j) (ih (j + 1) _)
    · simp

/-- The scan never runs past line_count. -/
theorem l3_scan_block_go_le (lines : List String) (line_count : Nat) :
    ∀ fuel j cur, j ≤ line_count →
      (l3_scan_block_go lines line_count fuel j cur).2 ≤ line_count := by
  intro fuel
  induction fuel with
  | zero => intro j cur h; simpa [l3_scan_block_go] using h
  | succ n ih =>
    intro j cur h
    simp only [l3_scan_block_go]
    split
    · next hj =>
      split
      · match cur with
        | none => exact ih (j + 1) _ hj
        | some bi =>
          simp only
          split
          · simpa using h
          · exact ih (j + 1) _ hj
      · exact ih (j + 1) _ hj
    · simpa using h

theorem l3_scan_block_ge (lines : List String) (start line_count : Nat) :
    start ≤ (l3_scan_block lines start line_count).2 :=
  l3_scan_block_go_ge lines line_count _ start none

theorem l3_scan_block_le (lines : List String) (start line_count : Nat)
    (h : start ≤ line_count) :
    (l3_scan_block lines start line_count).2 ≤ line_count :=
  l3_scan_block_go_le lines line_count _ start none h

/-- Lexicographic helper: strict decrease in the first component. -/
theorem lex3_left {a1 a2 b1 b2 c1 c2 : Nat} (ha : a1 < a2) :
    Prod.Lex (· < ·) (Prod.Lex (· < ·) (· < ·))
      ((a1, b1, c1) : Nat × Nat × Nat) (a2, b2, c2) :=
  Prod.Lex.left _ _ ha

/-- Lexicographic helper: first component non-increasing, second strictly
decreasing. -/
theorem lex3_le_mid {a1 a2 b1 b2 c1 c2 : Nat} (ha : a1 ≤ a2) (hb : b1 < b2) :
    Prod.Lex (· < ·) (Prod.Lex (· < ·) (· < ·))
      ((a1, b1, c1) : Nat × Nat × Nat) (a2, b2, c2) := by
  rcases lt_or_eq_of_le ha with h | h
  · exact Prod.Lex.left _ _ h
  · subst h
    exact Prod.Lex.right _ (Prod.Lex.left _ _ hb)

/-- Lexicographic helper: first two components equal, third strictly
decreasing. -/
theorem lex3_le_last {a1 a2 b c1 c2 : Nat} (ha : a1 ≤ a2) (hc : c1 < c2) :
    Prod.Lex (· < ·) (Prod.Lex (· < ·) (· < ·))
      ((a1, b, c1) : Nat × Nat × Nat) (a2, b, c2) := by
  rcases lt_or_eq_of_le ha with h | h
  · exact Prod.Lex.left _ _ h
  · subst h
    exact Prod.Lex.right _ (Prod.Lex.right _ hc)

mutual

/-- l3_execute_block: run lines from idx up to line_count at the given
base indentation, returning the final line index and context. -/
def l3_execute_block (arith : String → L3_ExecutionContext → Option String)
    (lines : List String) (idx line_count : Nat) (base_indent : Nat)
    (ctx : L3_ExecutionContext) : Nat × L3_ExecutionContext :=
  if h : idx < line_count then
    let line := lines.getD idx ""
    let trimmed := cTrim line
    if trimmed.length = 0 ∨ cStartsWith trimmed "//" then
      l3_execute_block arith lines (idx + 1) line_count base_indent ctx
    else
      let indent := l3_get_indent line
      if indent < base_indent ∧ 0 < trimmed.length then (idx, ctx)
      else if cStartsWith trimmed "if " then
        let condition := cTrim (trimmed.drop 3)
        let result := l3_evaluate_condition arith condition ctx
        let scan := l3_scan_block lines (idx + 1) line_count
        let ctx2 :=
          match hs : scan.1 with
          | some if_indent =>
            if result then
              (l3_execute_block arith lines (idx + 1) scan.2 if_indent ctx).2
            else ctx
          | none => ctx
        l3_execute_block arith lines scan.2 line_count base_indent ctx2
      else if cStartsWith trimmed "while " then
        let condition := cTrim (trimmed.drop 6)
        let scan := l3_scan_block lines (idx + 1) line_count
        let loop := l3_run_while arith lines (idx + 1) scan.2 scan.1 condition ctx 0
        l3_execute_block arith lines scan.2 line_count base_indent loop.1
      else if cStartsWith trimmed "for " then
        let rest := trimmed.drop 4
        match strstrIdx rest " in ", strstrIdx rest " to " with
        | some in_pos, some to_pos =>
          let var_trimmed := cTrim (cSubstring rest 0 in_pos)
          let start_len :=
            if in_pos + 4 ≤ to_pos then to_pos - (in_pos + 4) else
              (rest.drop (in_pos + 4)).length
          let start_trimmed := cTrim (cSubstring (rest.drop (in_pos + 4)) 0 start_len)
          let end_str := cTrim (rest.drop (to_pos + 4))
          let start_num := cAtoi (l3_evaluate_expression arith start_trimmed ctx)
          let end_num := cAtoi (l3_evaluate_expression arith end_str ctx)
          let scan := l3_scan_block lines (idx + 1) line_count
          let ctx2 := l3_run_for arith lines (idx + 1) scan.2 scan.1 var_trimmed
            end_num ((end_num + 1 - start_num).toNat) start_num ctx
          l3_execute_block arith lines scan.2 line_count base_indent ctx2
        | _, _ =>
          let ctx2 := if base_indent ≤ indent then l3_execute_line arith trimmed ctx
            else ctx
          l3_execute_block arith lines (idx + 1) line_count base_indent ctx2
      else
        let ctx2 := if base_indent ≤ indent then l3_execute_line arith trimmed ctx
          else ctx
        l3_execute_block arith lines (idx + 1) line_count base_indent ctx2
  else (idx, ctx)
termination_by ((line_count - idx, 1, 0) : Nat × Nat × Nat)
decreasing_by
  all_goals simp_wf
  all_goals
    first
      | exact lex3_left (by omega)
      | (have hge := l3_scan_block_ge lines (idx + 1) line_count
         have hle := l3_scan_block_le lines (idx + 1) line_count (by omega)
         first
           | exact lex3_left (by omega)
           | exact lex3_le_mid (by omega) (by omega))

/-- The while loop of l3_execute_block (source lines 1147-1156): run the
body while the condition holds and fewer than max_iterations = 10000
iterations have run; returns the context and the iteration count. -/
def l3_run_while (arith : String → L3_ExecutionContext → Option String)
    (lines : List String) (ws we : Nat) (windent : Option Nat)
    (condition : String) (ctx : L3_ExecutionContext) (iterations : Nat) :
    L3_ExecutionContext × Nat :=
  if h : l3_evaluate_condition arith condition ctx = true ∧ iterations < 10000 then
    let ctx2 :=
      match windent with
      | some wi => (l3_execute_block arith lines ws we wi ctx).2
      | none => ctx
    l3_run_while arith lines ws we windent condition ctx2 (iterations + 1)
  else (ctx, iterations)
termination_by ((we - ws + 1, 0, 10000 - iterations) : Nat × Nat × Nat)
decreasing_by
  all_goals simp_wf
  all_goals
    first
      | exact lex3_left (by omega)
      | exact lex3_le_last (Nat.le_refl _) (by omega)

/-- The for loop of l3_execute_block (source lines 1221-1230): iterate i
from start_num while i ≤ end_num, setting the loop variable as a local
each round; fuel is the exact iteration count (end_num + 1 - start_num,
clamped at zero). -/
def l3_run_for (arith : String → L3_ExecutionContext → Option String)
    (lines : List String) (fs fe : Nat) (findent : Option Nat)
    (var : String) (end_num : Int) (fuel : Nat) (i : Int)
    (ctx : L3_ExecutionContext) : L3_ExecutionContext :=
  match fuel with
  | 0 => ctx
  | fuel2 + 1 =>
    if i ≤ end_num then
      let ctx1 := l3_set_local ctx var (toString i)
      let ctx2 :=
        match findent with
        | some fi => (l3_execute_block arith lines fs fe fi ctx1).2
        | none => ctx1
      l3_run_for arith lines fs fe findent var end_num fuel2 (i + 1) ctx2
    else ctx
termination_by ((fe - fs + 1, 0, fuel) : Nat × Nat × Nat)
decreasing_by
  all_goals simp_wf
  all_goals
    first
      | exact lex3_left (by omega)
      | exact lex3_le_last (Nat.le_refl _) (by omega)

end

/-- l3_execute_handler: split the body on newlines (strtok, so empty
segments are skipped) and execute the whole block at base indent 0. -/
def l3_execute_handler (arith : String → L3_ExecutionContext → Option String)
    (body : String) (ctx : L3_ExecutionContext) : L3_ExecutionContext :=
  let lines := (body.splitOn "\n").filter (fun s => !(s == ""))
  (l3_execute_block arith lines 0 lines.length 0 ctx).2

/-- The handler-execution effect plugged into the tick (l3_tick lines
404-419): build the execution context over actor i's state (aliased with
the actor in C, written back here), run the handler body, and keep the
runtime as updated by any sends the handler performed. -/
def l3_execute_handler_at
    (arith : String → L3_ExecutionContext → Option String)
    (rt : L3_ActorRuntime) (i : Nat) (body data : String) : L3_ActorRuntime :=
  let actor := rt.actors.getD i default
  let ctx0 : L3_ExecutionContext :=
    { state := actor.state
      data := data
      runtime := rt
      actor_id := actor.id
      locals := [] }
  let ctx1 := l3_execute_handler arith body ctx0
  { ctx1.runtime with
      actors := ctx1.runtime.actors.set i { actor with state := ctx1.state } }

/-- l3_tick with the real handler interpreter (modulo the arith oracle). -/
def l3_tick (arith : String → L3_ExecutionContext → Option String)
    (rt : L3_ActorRuntime) : List (Nat × L3_Message) × L3_ActorRuntime :=
  l3_tick_with (l3_execute_handler_at arith) rt

/-- Trivial arithmetic oracle (the bc pipe always failing). -/
def c8_arith : String → L3_ExecutionContext → Option String := fun _ _ => none

/-- An empty execution context. -/
def c8_ctx : L3_ExecutionContext :=
  { state := []
    data := ""
    runtime := l3_runtime_init
    actor_id := 0
    locals := [] }


/-- Trivial arithmetic oracle for the C9 inputs (no operator characters
occur in them, so the oracle is never consulted). -/
def c9_arith : String → L3_ExecutionContext → Option String := fun _ _ => none

/-- An empty execution context for the C9 inputs. -/
def c9_ctx : L3_ExecutionContext :=
  { state := []
    data := ""
    runtime := l3_runtime_init
    actor_id := 0
    locals := [] }

/-! ## Theorems -/

/-! ## List update lemmas

Small helpers about `List.set`/`List.getD`, used to reason about qubit
array updates. -/

theorem getD_set_self {α : Type} (l : List α) (i : Nat) (a d : α)
    (h : i < l.length) : (l.set i a).getD i d = a := by
  induction l generalizing i with
  | nil => simp at h
  | cons x xs ih =>
    cases i with
    | zero => rfl
    | succ n => simpa using ih n (by simpa using h)

theorem getD_set_ne {α : Type} (l : List α) (i j : Nat) (a d : α)
    (h : j ≠ i) : (l.set i a).getD j d = l.getD j d := by
  induction l generalizing i j with
  | nil => rfl
  | cons x xs ih =>
    cases i with
    | zero =>
      cases j with
      | zero => exact absurd rfl h
      | succ m => rfl
    | succ n =>
      cases j with
      | zero => rfl
      | succ m => simpa using ih n m (fun hh => h (by rw [hh]))

theorem set_getD_self {α : Type} (l : List α) (i : Nat) (d : α) :
    l.set i (l.getD i d) = l := by
  induction l generalizing i with
  | nil => rfl
  | cons x xs ih =>
    cases i with
    | zero => rfl
    | succ n => simpa using ih n

/-! ## Gate primitive properties (claims C1, C5) -/

/-- C1 (counterexample): toggle1/CNOT with coincident operands (a = b =
0, both in range) applied twice does not restore the prior state: on the
one-bit array [1] the first application flips the bit (the control reads
the bit being flipped), the second is a no-op, leaving [0]. -/
theorem c1_coincident_operands_not_involution :
    ({ r_runtime_init 1 0 with qubits := [true] } : R_Runtime).qubits = [true]
    ∧ (r_execute_CNOT { r_runtime_init 1 0 with qubits := [true] } 0 0).1 = true
    ∧ (r_execute_CNOT
        (r_execute_CNOT { r_runtime_init 1 0 with qubits := [true] } 0 0).2
        0 0).2.qubits = [false] := by
  decide

/-- C1 (amended): each gate primitive succeeds on in-range operands and
applying it twice with identical operands restores the exact prior
runtime state, provided the toggled (target) operand is distinct from
the control operands: toggle2/CCNOT needs c ∉ {a,b}, toggle1/CNOT needs
b ≠ a; flip/NOT always, and swap/SWAP for all in-range operands
including coincident ones. -/
theorem c1_gate_primitives_involution :
    (∀ (rt : R_Runtime) (a b c : Nat),
      a < rt.qubits.length → b < rt.qubits.length → c < rt.qubits.length →
      c ≠ a → c ≠ b →
      (r_execute_CCNOT rt a b c).1 = true ∧
      (r_execute_CCNOT (r_execute_CCNOT rt a b c).2 a b c).2 = rt)
    ∧ (∀ (rt : R_Runtime) (a b : Nat),
      a < rt.qubits.length → b < rt.qubits.length → b ≠ a →
      (r_execute_CNOT rt a b).1 = true ∧
      (r_execute_CNOT (r_execute_CNOT rt a b).2 a b).2 = rt)
    ∧ (∀ (rt : R_Runtime) (a : Nat),
      a < rt.qubits.length →
      (r_execute_NOT rt a).1 = true ∧
      (r_execute_NOT (r_execute_NOT rt a).2 a).2 = rt)
    ∧ (∀ (rt : R_Runtime) (a b : Nat),
      a < rt.qubits.length → b < rt.qubits.length →
      (r_execute_SWAP rt a b).1 = true ∧
      (r_execute_SWAP (r_execute_SWAP rt a b).2 a b).2 = rt) := by
  refine ⟨?_, ?_, ?_, ?_⟩
  · -- CCNOT
    intro rt a b c ha hb hc hca hcb
    have hn : ¬(a ≥ rt.qubits.length ∨ b ≥ rt.qubits.length ∨
        c ≥ rt.qubits.length) := by omega
    by_cases hq : rt.qubits.getD a false = true ∧ rt.qubits.getD b false = true
    · have h1 : r_execute_CCNOT rt a b c =
          (true, { rt with
            qubits := rt.qubits.set c (!(rt.qubits.getD c false)) }) := by
        simp only [r_execute_CCNOT, if_neg hn, if_pos hq]
      refine ⟨by rw [h1], ?_⟩
      rw [h1]
      have hlen : (rt.qubits.set c (!(rt.qubits.getD c false))).length =
          rt.qubits.length := by simp
      have hn2 : ¬(a ≥ (rt.qubits.set c (!(rt.qubits.getD c false))).length ∨
          b ≥ (rt.qubits.set c (!(rt.qubits.getD c false))).length ∨
          c ≥ (rt.qubits.set c (!(rt.qubits.getD c false))).length) := by
        rw [hlen]; omega
      have hq2 : (rt.qubits.set c (!(rt.qubits.getD c false))).getD a false
            = true ∧
          (rt.qubits.set c (!(rt.qubits.getD c false))).getD b false = true := by
        rw [getD_set_ne _ _ _ _ _ (Ne.symm hca),
          getD_set_ne _ _ _ _ _ (Ne.symm hcb)]
        exact hq
      simp only [r_execute_CCNOT, if_neg hn2, if_pos hq2]
      rw [getD_set_self _ _ _ _ hc, Bool.not_not, List.set_set,
        set_getD_self]
    · have h1 : r_execute_CCNOT rt a b c = (true, rt) := by
        simp only [r_execute_CCNOT, if_neg hn, if_neg hq]
      refine ⟨by rw [h1], ?_⟩
      rw [h1, h1]
  · -- CNOT
    intro rt a b ha hb hba
    have hn : ¬(a ≥ rt.qubits.length ∨ b ≥ rt.qubits.length) := by omega
    by_cases hq : rt.qubits.getD a false = true
    · have h1 : r_execute_CNOT rt a b =
          (true, { rt with
            qubits := rt.qubits.set b (!(rt.qubits.getD b false)) }) := by
        simp only [r_execute_CNOT, if_neg hn, if_pos hq]
      refine ⟨by rw [h1], ?_⟩
      rw [h1]
      have hlen : (rt.qubits.set b (!(rt.qubits.getD b false))).length =
          rt.qubits.length := by simp
      have hn2 : ¬(a ≥ (rt.qubits.set b (!(rt.qubits.getD b false))).length ∨
          b ≥ (rt.qubits.set b (!(rt.qubits.getD b false))).length) := by
        rw [hlen]; omega
      have hq2 : (rt.qubits.set b (!(rt.qubits.getD b false))).getD a false
          = true := by
        rw [getD_set_ne _ _ _ _ _ (Ne.symm hba)]; exact hq
      simp only [r_execute_CNOT, if_neg hn2, if_pos hq2]
      rw [getD_set_self _ _ _ _ hb, Bool.not_not, List.set_set,
        set_getD_self]
    · have h1 : r_execute_CNOT rt a b = (true, rt) := by
        simp only [r_execute_CNOT, if_neg hn, if_neg hq]
      refine ⟨by rw [h1], ?_⟩
      rw [h1, h1]
  · -- NOT
    intro rt a ha
    have hn : ¬(a ≥ rt.qubits.length) := by omega
    have h1 : r_execute_NOT rt a =
        (true, { rt with
          qubits := rt.qubits.set a (!(rt.qubits.getD a false)) }) := by
      simp only [r_execute_NOT, if_neg hn]
    refine ⟨by rw [h1], ?_⟩
    rw [h1]
    have hlen : (rt.qubits.set a (!(rt.qubits.getD a false))).length =
        rt.qubits.length := by simp
    have hn2 : ¬(a ≥ (rt.qubits.set a (!(rt.qubits.getD a false))).length) := by
      rw [hlen]; omega
    simp only [r_execute_NOT, if_neg hn2]
    rw [getD_set_self _ _ _ _ ha, Bool.not_not, List.set_set, set_getD_self]
  · -- SWAP
    intro rt a b ha hb
    have hn : ¬(a ≥ rt.qubits.length ∨ b ≥ rt.qubits.length) := by omega
    have h1 : r_execute_SWAP rt a b =
        (true, { rt with
          qubits := (rt.qubits.set a (rt.qubits.getD b false)).set b
            (rt.qubits.getD a false) }) := by
      simp only [r_execute_SWAP, if_neg hn]
    refine ⟨by rw [h1], ?_⟩
    rw [h1]
    have hlen : ((rt.qubits.set a (rt.qubits.getD b false)).set b
        (rt.qubits.getD a false)).length = rt.qubits.length := by simp
    have hn2 : ¬(a ≥ ((rt.qubits.set a (rt.qubits.getD b false)).set b
          (rt.qubits.getD a false)).length ∨
        b ≥ ((rt.qubits.set a (rt.qubits.getD b false)).set b
          (rt.qubits.getD a false)).length) := by
      rw [hlen]; omega
    simp only [r_execute_SWAP, if_neg hn2]
    by_cases hab : a = b
    · subst hab
      have hcollapse : (rt.qubits.set a (rt.qubits.getD a false)).set a
          (rt.qubits.getD a false) = rt.qubits := by
        rw [List.set_set, set_getD_self]
      simp only [hcollapse]
    · have hga : ((rt.qubits.set a (rt.qubits.getD b false)).set b
          (rt.qubits.getD a false)).getD a false = rt.qubits.getD b false := by
        rw [getD_set_ne _ _ _ _ _ hab, getD_set_self _ _ _ _ ha]
      have hgb : ((rt.qubits.set a (rt.qubits.getD b false)).set b
          (rt.qubits.getD a false)).getD b false = rt.qubits.getD a false := by
        rw [getD_set_self]
        simpa using hb
      rw [hga, hgb]
      rw [List.set_comm _ _ _ (Ne.symm hab), List.set_set, List.set_set,
        set_getD_self, set_getD_self]

/-- C1 (witness): the amended involution theorem applied on the concrete
two-bit runtime [1,0], with coincident controls for CCNOT (a = b = 0,
target 1) and coincident operands for SWAP. -/
theorem c1_involution_witness :
    ((0 : Nat) < 2 ∧ (1 : Nat) < 2 ∧ (1 : Nat) ≠ 0)
    ∧ (r_execute_CCNOT
        (r_execute_CCNOT { r_runtime_init 2 0 with qubits := [true, false] }
          0 0 1).2 0 0 1).2
        = { r_runtime_init 2 0 with qubits := [true, false] }
    ∧ (r_execute_CNOT
        (r_execute_CNOT { r_runtime_init 2 0 with qubits := [true, false] }
          0 1).2 0 1).2
        = { r_runtime_init 2 0 with qubits := [true, false] }
    ∧ (r_execute_NOT
        (r_execute_NOT { r_runtime_init 2 0 with qubits := [true, false] }
          0).2 0).2
        = { r_runtime_init 2 0 with qubits := [true, false] }
    ∧ (r_execute_SWAP
        (r_execute_SWAP { r_runtime_init 2 0 with qubits := [true, false] }
          0 0).2 0 0).2
        = { r_runtime_init 2 0 with qubits := [true, false] } := by
  refine ⟨by decide, ?_, ?_, ?_, ?_⟩
  · exact (c1_gate_primitives_involution.1 _ 0 0 1 (by decide) (by decide)
      (by decide) (by decide) (by decide)).2
  · exact (c1_gate_primitives_involution.2.1 _ 0 1 (by decide) (by decide)
      (by decide)).2
  · exact (c1_gate_primitives_involution.2.2.1 _ 0 (by decide)).2
  · exact (c1_gate_primitives_involution.2.2.2 _ 0 0 (by decide) (by decide)).2

/-- C5 (counterexample): the claim fails for the D-layer gates.  On a
one-bit runtime, NAND with all three indices out of range returns true
(not failure), and AND with an out-of-range first index but an in-range
set result bit returns false yet clears the result bit (partial
mutation). -/
theorem c5_d_layer_gates_violate_out_of_range_contract :
    (d_execute_NAND (d_runtime_init 1 0 0) 5 6 7).1 = true
    ∧ (d_execute_AND
        { d_runtime_init 1 0 0 with
          r_runtime := { r_runtime_init 1 0 with qubits := [true] } }
        5 0 0).1 = false
    ∧ (d_execute_AND
        { d_runtime_init 1 0 0 with
          r_runtime := { r_runtime_init 1 0 with qubits := [true] } }
        5 0 0).2.r_runtime.qubits = [false] := by
  decide

/-- C5 (amended): the out-of-range contract holds for the four gate
primitives: given at least one out-of-range bit index each returns false
and leaves the runtime (in particular the entire bit array) unchanged.
(The D-layer gates do not share this guarantee; see the
counterexample.) -/
theorem c5_primitives_out_of_range_clean_failure :
    (∀ (rt : R_Runtime) (a b c : Nat),
      a ≥ rt.qubits.length ∨ b ≥ rt.qubits.length ∨ c ≥ rt.qubits.length →
      r_execute_CCNOT rt a b c = (false, rt))
    ∧ (∀ (rt : R_Runtime) (a b : Nat),
      a ≥ rt.qubits.length ∨ b ≥ rt.qubits.length →
      r_execute_CNOT rt a b = (false, rt))
    ∧ (∀ (rt : R_Runtime) (a : Nat),
      a ≥ rt.qubits.length →
      r_execute_NOT rt a = (false, rt))
    ∧ (∀ (rt : R_Runtime) (a b : Nat),
      a ≥ rt.qubits.length ∨ b ≥ rt.qubits.length →
      r_execute_SWAP rt a b = (false, rt)) := by
  refine ⟨?_, ?_, ?_, ?_⟩
  · intro rt a b c h
    simp only [r_execute_CCNOT, if_pos h]
  · intro rt a b h
    simp only [r_execute_CNOT, if_pos h]
  · intro rt a h
    simp only [r_execute_NOT, if_pos (by omega : a ≥ rt.qubits.length)]
  · intro rt a b h
    simp only [r_execute_SWAP, if_pos h]

/-- C5 (witness): the amended theorem applied to a one-bit runtime with
index 5 out of range for each primitive. -/
theorem c5_out_of_range_witness :
    ((5 : Nat) ≥ (r_runtime_init 1 0).qubits.length)
    ∧ r_execute_CCNOT (r_runtime_init 1 0) 5 0 0 = (false, r_runtime_init 1 0)
    ∧ r_execute_CNOT (r_runtime_init 1 0) 5 0 = (false, r_runtime_init 1 0)
    ∧ r_execute_NOT (r_runtime_init 1 0) 5 = (false, r_runtime_init 1 0)
    ∧ r_execute_SWAP (r_runtime_init 1 0) 5 0 = (false, r_runtime_init 1 0) := by
  refine ⟨by decide, ?_, ?_, ?_, ?_⟩
  · exact c5_primitives_out_of_range_clean_failure.1 _ 5 0 0 (Or.inl (by decide))
  · exact c5_primitives_out_of_range_clean_failure.2.1 _ 5 0 (Or.inl (by decide))
  · exact c5_primitives_out_of_range_clean_failure.2.2.1 _ 5 (by decide)
  · exact c5_primitives_out_of_range_clean_failure.2.2.2 _ 5 0 (Or.inl (by decide))

/-! ## Cell execution, inverses and rewind (claims C2, C10) -/

/-- C10: a cell whose executed flag is set is never executed again:
r_execute_cell returns false and leaves the runtime (bit array and
execution history included) unchanged, and consequently
r_execute_inverse on such a cell never re-applies its gate. -/
theorem c10_executed_cell_never_reexecuted (rt : R_Runtime) (ci : Nat)
    (cell : HRIR_Cell) (hc : rt.cells.get? ci = some cell)
    (hex : cell.executed = true) :
    r_execute_cell rt ci = (false, rt)
    ∧ r_execute_inverse rt ci = (false, rt) := by
  have h : r_execute_cell rt ci = (false, rt) := by
    unfold r_execute_cell
    rw [hc]
    simp [hex]
  exact ⟨h, h⟩

/-- C10 (witness): the theorem applied to the concrete runtime `c10_rt`
whose cell 0 is already executed. -/
theorem c10_executed_cell_witness :
    (c10_rt.cells.get? 0 = some c10_cell ∧ c10_cell.executed = true)
    ∧ r_execute_cell c10_rt 0 = (false, c10_rt)
    ∧ r_execute_inverse c10_rt 0 = (false, c10_rt) := by
  refine ⟨⟨by decide, by decide⟩, ?_, ?_⟩
  · exact (c10_executed_cell_never_reexecuted c10_rt 0 c10_cell (by decide)
      (by decide)).1
  · exact (c10_executed_cell_never_reexecuted c10_rt 0 c10_cell (by decide)
      (by decide)).2

/-- C2 (code bug, failing input): after executing NOT(0) the bit array
is [1]; rewindToIndex(0) reports success and truncates the execution
position to 0, but the bit array stays [1] instead of returning to the
[0] it held at execution position 0 — the inverse replay inside
r_rewind_to_index calls r_execute_inverse = r_execute_cell on a cell
whose executed flag is still set, which refuses to run, and its result
is discarded. -/
theorem c2_rewind_does_not_restore_bits :
    c2_rt0.qubits = [false]
    ∧ (r_execute_cell c2_rt0 0).1 = true
    ∧ c2_rt1.qubits = [true]
    ∧ c2_rt1.execution_history = [0]
    ∧ (r_rewind_to_index c2_rt1 0).1 = true
    ∧ (r_rewind_to_index c2_rt1 0).2.execution_history = []
    ∧ (r_rewind_to_index c2_rt1 0).2.qubits = [true] := by
  decide

/-! ## D-layer gate characterisations (claims C3, C4) -/

/-- The result-clearing phase shared by d_execute_AND and d_execute_XOR:
read the result bit and flip it if set, leaving it 0. -/
theorem clear_result_qubits (r : R_Runtime) (res : Nat)
    (h : res < r.qubits.length) :
    (if r_read_qubit r res then (r_execute_NOT r res).2 else r) =
      { r with qubits := r.qubits.set res false } := by
  have hn : ¬(res ≥ r.qubits.length) := by omega
  by_cases hv : r_read_qubit r res
  · rw [if_pos hv]
    have hv2 : r.qubits.getD res false = true := by
      simpa only [r_read_qubit, if_neg hn] using hv
    simp only [r_execute_NOT, if_neg hn, hv2, Bool.not_true]
  · rw [if_neg hv]
    have hx : ¬(r.qubits.getD res false = true) := by
      intro hcon
      exact hv (by simpa only [r_read_qubit, if_neg hn] using hcon)
    have hv2 : r.qubits.getD res false = false := by
      cases hgd : r.qubits.getD res false with
      | false => rfl
      | true => exact absurd hgd hx
    have hset : r.qubits.set res false = r.qubits := by
      rw [← hv2]; exact set_getD_self _ _ _
    rw [hset]

/-- Characterisation of d_execute_AND on in-range operands with the
result index distinct from both inputs: it succeeds and overwrites the
result bit with a AND b, leaving every other bit unchanged. -/
theorem d_AND_spec (rt : D_Runtime) (a b res : Nat)
    (ha : a < rt.r_runtime.qubits.length) (hb : b < rt.r_runtime.qubits.length)
    (hres : res < rt.r_runtime.qubits.length) (hra : res ≠ a) (hrb : res ≠ b) :
    d_execute_AND rt a b res =
      (true, { rt with r_runtime := { rt.r_runtime with qubits :=
        (rt.r_runtime.qubits.set res
          (rt.r_runtime.qubits.getD a false &&
            rt.r_runtime.qubits.getD b false)) } }) := by
  simp only [d_execute_AND]
  rw [clear_result_qubits rt.r_runtime res hres]
  have hn2 : ¬(a ≥ (rt.r_runtime.qubits.set res false).length ∨
      b ≥ (rt.r_runtime.qubits.set res false).length ∨
      res ≥ (rt.r_runtime.qubits.set res false).length) := by
    simp only [List.length_set]; omega
  have hga : (rt.r_runtime.qubits.set res false).getD a false =
      rt.r_runtime.qubits.getD a false := getD_set_ne _ _ _ _ _ (Ne.symm hra)
  have hgb : (rt.r_runtime.qubits.set res false).getD b false =
      rt.r_runtime.qubits.getD b false := getD_set_ne _ _ _ _ _ (Ne.symm hrb)
  by_cases hcc : rt.r_runtime.qubits.getD a false = true ∧
      rt.r_runtime.qubits.getD b false = true
  · have hcc2 : (rt.r_runtime.qubits.set res false).getD a false = true ∧
        (rt.r_runtime.qubits.set res false).getD b false = true := by
      rw [hga, hgb]; exact hcc
    simp only [r_execute_CCNOT, if_neg hn2, if_pos hcc2]
    rw [getD_set_self _ _ _ _ hres, Bool.not_false, List.set_set,
      hcc.1, hcc.2, Bool.and_self]
  · have hcc2 : ¬((rt.r_runtime.qubits.set res false).getD a false = true ∧
        (rt.r_runtime.qubits.set res false).getD b false = true) := by
      rw [hga, hgb]; exact hcc
    simp only [r_execute_CCNOT, if_neg hn2, if_neg hcc2]
    have hfalse : (rt.r_runtime.qubits.getD a false &&
        rt.r_runtime.qubits.getD b false) = false := by
      cases hqa : rt.r_runtime.qubits.getD a false <;>
        cases hqb : rt.r_runtime.qubits.getD b false <;> simp_all
    rw [hfalse]

/-- Characterisation of d_execute_XOR on in-range operands with the
result index distinct from both inputs: it succeeds and overwrites the
result bit with a XOR b. -/
theorem d_XOR_spec (rt : D_Runtime) (a b res : Nat)
    (ha : a < rt.r_runtime.qubits.length) (hb : b < rt.r_runtime.qubits.length)
    (hres : res < rt.r_runtime.qubits.length) (hra : res ≠ a) (hrb : res ≠ b) :
    d_execute_XOR rt a b res =
      (true, { rt with r_runtime := { rt.r_runtime with qubits :=
        (rt.r_runtime.qubits.set res
          (Bool.xor (rt.r_runtime.qubits.getD a false)
            (rt.r_runtime.qubits.getD b false))) } }) := by
  simp only [d_execute_XOR]
  rw [clear_result_qubits rt.r_runtime res hres]
  have hn2 : ¬(a ≥ (rt.r_runtime.qubits.set res false).length ∨
      res ≥ (rt.r_runtime.qubits.set res false).length) := by
    simp only [List.length_set]; omega
  by_cases hqa : rt.r_runtime.qubits.getD a false = true
  · have hga : (rt.r_runtime.qubits.set res false).getD a false = true := by
      rw [getD_set_ne _ _ _ _ _ (Ne.symm hra)]; exact hqa
    simp only [r_execute_CNOT, if_neg hn2, if_pos hga]
    rw [getD_set_self _ _ _ _ hres, Bool.not_false, List.set_set]
    have hn3 : ¬(b ≥ (rt.r_runtime.qubits.set res true).length ∨
        res ≥ (rt.r_runtime.qubits.set res true).length) := by
      simp only [List.length_set]; omega
    by_cases hqb : rt.r_runtime.qubits.getD b false = true
    · have hgb : (rt.r_runtime.qubits.set res true).getD b false = true := by
        rw [getD_set_ne _ _ _ _ _ (Ne.symm hrb)]; exact hqb
      simp only [r_execute_CNOT, if_neg hn3, if_pos hgb]
      rw [getD_set_self _ _ _ _ hres, Bool.not_true, List.set_set, hqa, hqb]
      rfl
    · have hgb : ¬((rt.r_runtime.qubits.set res true).getD b false = true) := by
        rw [getD_set_ne _ _ _ _ _ (Ne.symm hrb)]; exact hqb
      simp only [r_execute_CNOT, if_neg hn3, if_neg hgb]
      have hqb2 : rt.r_runtime.qubits.getD b false = false := by
        cases hgd : rt.r_runtime.qubits.getD b false with
        | false => rfl
        | true => exact absurd hgd hqb
      rw [hqa, hqb2]
      rfl
  · have hga : ¬((rt.r_runtime.qubits.set res false).getD a false = true) := by
      rw [getD_set_ne _ _ _ _ _ (Ne.symm hra)]; exact hqa
    simp only [r_execute_CNOT, if_neg hn2, if_neg hga]
    have hqa2 : rt.r_runtime.qubits.getD a false = false := by
      cases hgd : rt.r_runtime.qubits.getD a false with
      | false => rfl
      | true => exact absurd hgd hqa
    have hn3 : ¬(b ≥ (rt.r_runtime.qubits.set res false).length ∨
        res ≥ (rt.r_runtime.qubits.set res false).length) := by
      simp only [List.length_set]; omega
    by_cases hqb : rt.r_runtime.qubits.getD b false = true
    · have hgb : (rt.r_runtime.qubits.set res false).getD b false = true := by
        rw [getD_set_ne _ _ _ _ _ (Ne.symm hrb)]; exact hqb
      simp only [r_execute_CNOT, if_neg hn3, if_pos hgb]
      rw [getD_set_self _ _ _ _ hres, Bool.not_false, List.set_set, hqa2, hqb]
      rfl
    · have hgb : ¬((rt.r_runtime.qubits.set res false).getD b false = true) := by
        rw [getD_set_ne _ _ _ _ _ (Ne.symm hrb)]; exact hqb
      simp only [r_execute_CNOT, if_neg hn3, if_neg hgb]
      have hqb2 : rt.r_runtime.qubits.getD b false = false := by
        cases hgd : rt.r_runtime.qubits.getD b false with
        | false => rfl
        | true => exact absurd hgd hqb
      rw [hqa2, hqb2]
      rfl

/-- Characterisation of d_execute_NAND: AND into the result bit, then
flip it; succeeds with result bit NOT(a AND b). -/
theorem d_NAND_spec (rt : D_Runtime) (a b res : Nat)
    (ha : a < rt.r_runtime.qubits.length) (hb : b < rt.r_runtime.qubits.length)
    (hres : res < rt.r_runtime.qubits.length) (hra : res ≠ a) (hrb : res ≠ b) :
    d_execute_NAND rt a b res =
      (true, { rt with r_runtime := { rt.r_runtime with qubits :=
        (rt.r_runtime.qubits.set res
          (!(rt.r_runtime.qubits.getD a false &&
            rt.r_runtime.qubits.getD b false))) } }) := by
  simp only [d_execute_NAND]
  rw [d_AND_spec rt a b res ha hb hres hra hrb]
  have hn : ¬(res ≥ (rt.r_runtime.qubits.set res
      (rt.r_runtime.qubits.getD a false &&
        rt.r_runtime.qubits.getD b false)).length) := by
    simp only [List.length_set]; omega
  simp only [r_execute_NOT, if_neg hn]
  rw [getD_set_self _ _ _ _ hres, List.set_set]


/-- Pointwise characterisation of r_execute_NOT on an in-range index. -/
theorem r_NOT_spec (r : R_Runtime) (i : Nat) (h : i < r.qubits.length) :
    r_execute_NOT r i =
      (true, { r with qubits := r.qubits.set i (!(r.qubits.getD i false)) }) := by
  simp only [r_execute_NOT, if_neg (by omega : ¬(i ≥ r.qubits.length))]

/-- Pointwise characterisation of r_write_qubit on an in-range index. -/
theorem r_write_qubit_spec (r : R_Runtime) (i : Nat) (v : Bool)
    (h : i < r.qubits.length) :
    r_write_qubit r i v = (true, { r with qubits := r.qubits.set i v }) := by
  simp only [r_write_qubit, if_neg (by omega : ¬(i ≥ r.qubits.length))]

/-- Pointwise characterisation of r_read_qubit on an in-range index. -/
theorem r_read_qubit_spec (r : R_Runtime) (i : Nat) (h : i < r.qubits.length) :
    r_read_qubit r i = r.qubits.getD i false := by
  simp only [r_read_qubit, if_neg (by omega : ¬(i ≥ r.qubits.length))]

/-- Characterisation of d_execute_OR on a runtime with at least two
ancilla bits and in-range non-ancilla operands: it succeeds, leaves the
inverted copies of bits a and b in the two ancillas, and overwrites the
result bit with a OR b. -/
theorem d_OR_spec (rt : D_Runtime) (a b res : Nat)
    (hwf : rt.ancilla_start + rt.ancilla_count = rt.r_runtime.qubits.length)
    (hac : 2 ≤ rt.ancilla_count)
    (ha : a < rt.ancilla_start) (hb : b < rt.ancilla_start)
    (hres : res < rt.ancilla_start) :
    d_execute_OR rt a b res =
      (true, { rt with r_runtime := { rt.r_runtime with qubits :=
        (((rt.r_runtime.qubits.set rt.ancilla_start
            (!(rt.r_runtime.qubits.getD a false))).set (rt.ancilla_start + 1)
            (!(rt.r_runtime.qubits.getD b false))).set res
            (rt.r_runtime.qubits.getD a false ||
              rt.r_runtime.qubits.getD b false)) } }) := by
  have h2 : ¬(rt.ancilla_count < 2) := by omega
  have hraN : rt.ancilla_start < rt.r_runtime.qubits.length := by omega
  have e1 : (r_write_qubit rt.r_runtime rt.ancilla_start
      (r_read_qubit rt.r_runtime a)).2 =
      { rt.r_runtime with qubits := (rt.r_runtime.qubits.set rt.ancilla_start
        (rt.r_runtime.qubits.getD a false)) } := by
    rw [r_read_qubit_spec _ _ (by omega), r_write_qubit_spec _ _ _ (by omega)]
  have e2 : (r_execute_NOT { rt.r_runtime with qubits :=
      (rt.r_runtime.qubits.set rt.ancilla_start
        (rt.r_runtime.qubits.getD a false)) } rt.ancilla_start).2 =
      { rt.r_runtime with qubits := (rt.r_runtime.qubits.set rt.ancilla_start
        (!(rt.r_runtime.qubits.getD a false))) } := by
    rw [r_NOT_spec _ _ (by simp only [List.length_set]; omega)]
    rw [getD_set_self _ _ _ _ hraN, List.set_set]
  have e3 : r_read_qubit { rt.r_runtime with qubits :=
      (rt.r_runtime.qubits.set rt.ancilla_start
        (!(rt.r_runtime.qubits.getD a false))) } b =
      rt.r_runtime.qubits.getD b false := by
    rw [r_read_qubit_spec _ _ (by simp only [List.length_set]; omega)]
    exact getD_set_ne _ _ _ _ _ (by omega)
  have e4 : (r_write_qubit { rt.r_runtime with qubits :=
      (rt.r_runtime.qubits.set rt.ancilla_start
        (!(rt.r_runtime.qubits.getD a false))) } (rt.ancilla_start + 1)
      (rt.r_runtime.qubits.getD b false)).2 =
      { rt.r_runtime with qubits :=
        ((rt.r_runtime.qubits.set rt.ancilla_start
          (!(rt.r_runtime.qubits.getD a false))).set (rt.ancilla_start + 1)
          (rt.r_runtime.qubits.getD b false)) } := by
    rw [r_write_qubit_spec _ _ _ (by simp only [List.length_set]; omega)]
  have e5 : (r_execute_NOT { rt.r_runtime with qubits :=
      ((rt.r_runtime.qubits.set rt.ancilla_start
        (!(rt.r_runtime.qubits.getD a false))).set (rt.ancilla_start + 1)
        (rt.r_runtime.qubits.getD b false)) } (rt.ancilla_start + 1)).2 =
      { rt.r_runtime with qubits :=
        ((rt.r_runtime.qubits.set rt.ancilla_start
          (!(rt.r_runtime.qubits.getD a false))).set (rt.ancilla_start + 1)
          (!(rt.r_runtime.qubits.getD b false))) } := by
    rw [r_NOT_spec _ _ (by simp only [List.length_set]; omega)]
    rw [getD_set_self _ _ _ _ (by simp only [List.length_set]; omega),
      List.set_set]
  have e6 : (d_execute_AND { rt with r_runtime := { rt.r_runtime with qubits :=
      ((rt.r_runtime.qubits.set rt.ancilla_start
        (!(rt.r_runtime.qubits.getD a false))).set (rt.ancilla_start + 1)
        (!(rt.r_runtime.qubits.getD b false))) } }
      rt.ancilla_start (rt.ancilla_start + 1) res).2 =
      { rt with r_runtime := { rt.r_runtime with qubits :=
        (((rt.r_runtime.qubits.set rt.ancilla_start
          (!(rt.r_runtime.qubits.getD a false))).set (rt.ancilla_start + 1)
          (!(rt.r_runtime.qubits.getD b false))).set res
          (!(rt.r_runtime.qubits.getD a false) &&
            !(rt.r_runtime.qubits.getD b false))) } } := by
    rw [d_AND_spec _ rt.ancilla_start (rt.ancilla_start + 1) res
      (by simp only [List.length_set]; omega)
      (by simp only [List.length_set]; omega)
      (by simp only [List.length_set]; omega)
      (by omega) (by omega)]
    rw [getD_set_ne _ _ _ _ _ (by omega : rt.ancilla_start ≠ rt.ancilla_start + 1),
      getD_set_self _ _ _ _ hraN,
      getD_set_self _ _ _ _ (by simp only [List.length_set]; omega)]
  have e7 : (r_execute_NOT { rt.r_runtime with qubits :=
      (((rt.r_runtime.qubits.set rt.ancilla_start
        (!(rt.r_runtime.qubits.getD a false))).set (rt.ancilla_start + 1)
        (!(rt.r_runtime.qubits.getD b false))).set res
        (!(rt.r_runtime.qubits.getD a false) &&
          !(rt.r_runtime.qubits.getD b false))) } res).2 =
      { rt.r_runtime with qubits :=
        (((rt.r_runtime.qubits.set rt.ancilla_start
          (!(rt.r_runtime.qubits.getD a false))).set (rt.ancilla_start + 1)
          (!(rt.r_runtime.qubits.getD b false))).set res
          (rt.r_runtime.qubits.getD a false ||
            rt.r_runtime.qubits.getD b false)) } := by
    rw [r_NOT_spec _ _ (by simp only [List.length_set]; omega)]
    rw [getD_set_self _ _ _ _ (by simp only [List.length_set]; omega),
      List.set_set]
    have hdm : (!(!(rt.r_runtime.qubits.getD a false) &&
        !(rt.r_runtime.qubits.getD b false))) =
        (rt.r_runtime.qubits.getD a false ||
          rt.r_runtime.qubits.getD b false) := by
      cases rt.r_runtime.qubits.getD a false <;>
        cases rt.r_runtime.qubits.getD b false <;> rfl
    rw [hdm]
  simp only [d_execute_OR, if_neg h2]
  rw [e1, e2, e3, e4, e5, e6, e7]

/-- Characterisation of d_execute_NOR: OR into the result bit, then flip
it; succeeds with result bit NOT(a OR b) (the ancillas again hold the
inverted inputs). -/
theorem d_NOR_spec (rt : D_Runtime) (a b res : Nat)
    (hwf : rt.ancilla_start + rt.ancilla_count = rt.r_runtime.qubits.length)
    (hac : 2 ≤ rt.ancilla_count)
    (ha : a < rt.ancilla_start) (hb : b < rt.ancilla_start)
    (hres : res < rt.ancilla_start) :
    d_execute_NOR rt a b res =
      (true, { rt with r_runtime := { rt.r_runtime with qubits :=
        (((rt.r_runtime.qubits.set rt.ancilla_start
            (!(rt.r_runtime.qubits.getD a false))).set (rt.ancilla_start + 1)
            (!(rt.r_runtime.qubits.getD b false))).set res
            (!(rt.r_runtime.qubits.getD a false ||
              rt.r_runtime.qubits.getD b false))) } }) := by
  simp only [d_execute_NOR]
  rw [d_OR_spec rt a b res hwf hac ha hb hres]
  rw [r_NOT_spec _ _ (by simp only [List.length_set]; omega)]
  rw [getD_set_self _ _ _ _ (by simp only [List.length_set]; omega),
    List.set_set]

/-- C3: on a well-formed D-runtime with at least two ancillas, for any
bits a, b at distinct in-range non-ancilla indices and any distinct
in-range non-ancilla result index with arbitrary prior value, the five
D-layer gates succeed and leave the canonical truth-table value in the
result bit. -/
theorem c3_d_layer_truth_tables (rt : D_Runtime) (a b res : Nat)
    (hwf : rt.ancilla_start + rt.ancilla_count = rt.r_runtime.qubits.length)
    (hac : 2 ≤ rt.ancilla_count)
    (ha : a < rt.ancilla_start) (hb : b < rt.ancilla_start)
    (hres : res < rt.ancilla_start)
    (_hab : a ≠ b) (hra : res ≠ a) (hrb : res ≠ b) :
    ((d_execute_AND rt a b res).1 = true ∧
      (d_execute_AND rt a b res).2.r_runtime.qubits.getD res false =
        (rt.r_runtime.qubits.getD a false && rt.r_runtime.qubits.getD b false))
    ∧ ((d_execute_OR rt a b res).1 = true ∧
      (d_execute_OR rt a b res).2.r_runtime.qubits.getD res false =
        (rt.r_runtime.qubits.getD a false || rt.r_runtime.qubits.getD b false))
    ∧ ((d_execute_XOR rt a b res).1 = true ∧
      (d_execute_XOR rt a b res).2.r_runtime.qubits.getD res false =
        Bool.xor (rt.r_runtime.qubits.getD a false)
          (rt.r_runtime.qubits.getD b false))
    ∧ ((d_execute_NAND rt a b res).1 = true ∧
      (d_execute_NAND rt a b res).2.r_runtime.qubits.getD res false =
        (!(rt.r_runtime.qubits.getD a false &&
          rt.r_runtime.qubits.getD b false)))
    ∧ ((d_execute_NOR rt a b res).1 = true ∧
      (d_execute_NOR rt a b res).2.r_runtime.qubits.getD res false =
        (!(rt.r_runtime.qubits.getD a false ||
          rt.r_runtime.qubits.getD b false))) := by
  have haN : a < rt.r_runtime.qubits.length := by omega
  have hbN : b < rt.r_runtime.qubits.length := by omega
  have hresN : res < rt.r_runtime.qubits.length := by omega
  refine ⟨⟨?_, ?_⟩, ⟨?_, ?_⟩, ⟨?_, ?_⟩, ⟨?_, ?_⟩, ⟨?_, ?_⟩⟩
  · rw [d_AND_spec rt a b res haN hbN hresN hra hrb]
  · rw [d_AND_spec rt a b res haN hbN hresN hra hrb]
    exact getD_set_self _ _ _ _ hresN
  · rw [d_OR_spec rt a b res hwf hac ha hb hres]
  · rw [d_OR_spec rt a b res hwf hac ha hb hres]
    exact getD_set_self _ _ _ _ (by simp only [List.length_set]; omega)
  · rw [d_XOR_spec rt a b res haN hbN hresN hra hrb]
  · rw [d_XOR_spec rt a b res haN hbN hresN hra hrb]
    exact getD_set_self _ _ _ _ hresN
  · rw [d_NAND_spec rt a b res haN hbN hresN hra hrb]
  · rw [d_NAND_spec rt a b res haN hbN hresN hra hrb]
    exact getD_set_self _ _ _ _ hresN
  · rw [d_NOR_spec rt a b res hwf hac ha hb hres]
  · rw [d_NOR_spec rt a b res hwf hac ha hb hres]
    exact getD_set_self _ _ _ _ (by simp only [List.length_set]; omega)

/-- C3 (witness): the truth-table theorem applied to the concrete 3+2
bit runtime with bit values a = 1, b = 0, and a result bit whose prior
value is 1. -/
theorem c3_truth_tables_witness :
    (({ d_runtime_init 3 2 7 with r_runtime :=
        { r_runtime_init 5 7 with qubits := [true, false, true, false, true] }
      } : D_Runtime).ancilla_start +
      ({ d_runtime_init 3 2 7 with r_runtime :=
        { r_runtime_init 5 7 with qubits := [true, false, true, false, true] }
      } : D_Runtime).ancilla_count = 5 ∧ (0 : Nat) ≠ 1 ∧ (2 : Nat) ≠ 0)
    ∧ (d_execute_AND { d_runtime_init 3 2 7 with r_runtime :=
        { r_runtime_init 5 7 with qubits := [true, false, true, false, true] }
      } 0 1 2).2.r_runtime.qubits.getD 2 false = false
    ∧ (d_execute_OR { d_runtime_init 3 2 7 with r_runtime :=
        { r_runtime_init 5 7 with qubits := [true, false, true, false, true] }
      } 0 1 2).2.r_runtime.qubits.getD 2 false = true
    ∧ (d_execute_XOR { d_runtime_init 3 2 7 with r_runtime :=
        { r_runtime_init 5 7 with qubits := [true, false, true, false, true] }
      } 0 1 2).2.r_runtime.qubits.getD 2 false = true
    ∧ (d_execute_NAND { d_runtime_init 3 2 7 with r_runtime :=
        { r_runtime_init 5 7 with qubits := [true, false, true, false, true] }
      } 0 1 2).2.r_runtime.qubits.getD 2 false = true
    ∧ (d_execute_NOR { d_runtime_init 3 2 7 with r_runtime :=
        { r_runtime_init 5 7 with qubits := [true, false, true, false, true] }
      } 0 1 2).2.r_runtime.qubits.getD 2 false = false := by
  refine ⟨by decide, ?_, ?_, ?_, ?_, ?_⟩
  · exact (c3_d_layer_truth_tables _ 0 1 2 (by decide) (by decide) (by decide)
      (by decide) (by decide) (by decide) (by decide) (by decide)).1.2
  · exact (c3_d_layer_truth_tables _ 0 1 2 (by decide) (by decide) (by decide)
      (by decide) (by decide) (by decide) (by decide) (by decide)).2.1.2
  · exact (c3_d_layer_truth_tables _ 0 1 2 (by decide) (by decide) (by decide)
      (by decide) (by decide) (by decide) (by decide) (by decide)).2.2.1.2
  · exact (c3_d_layer_truth_tables _ 0 1 2 (by decide) (by decide) (by decide)
      (by decide) (by decide) (by decide) (by decide) (by decide)).2.2.2.1.2
  · exact (c3_d_layer_truth_tables _ 0 1 2 (by decide) (by decide) (by decide)
      (by decide) (by decide) (by decide) (by decide) (by decide)).2.2.2.2.2

/-- C4 (counterexample): OR does not restore its ancillas.  On the fresh
3+2-bit runtime (all bits 0), OR(0,1,2) leaves both ancilla bits (indices
3 and 4) holding 1, while they held 0 before the call — so more than the
result bit differs from the pre-call bit state. -/
theorem c4_or_does_not_restore_ancillas :
    (d_runtime_init 3 2 0).r_runtime.qubits.getD 3 false = false
    ∧ (d_runtime_init 3 2 0).r_runtime.qubits.getD 4 false = false
    ∧ (d_execute_OR (d_runtime_init 3 2 0) 0 1 2).2.r_runtime.qubits.getD 3
        false = true
    ∧ (d_execute_OR (d_runtime_init 3 2 0) 0 1 2).2.r_runtime.qubits.getD 4
        false = true := by
  decide

/-- C4 (amended): after OR(a,b,result) returns on a well-formed runtime
with at least two ancilla bits (and in-range non-ancilla operands), the
two ancilla bits it used hold the inverted copies of input bits a and b
— not their pre-call values — and every bit other than the result bit
and those two ancillas is unchanged. -/
theorem c4_or_ancilla_effect (rt : D_Runtime) (a b res : Nat)
    (hwf : rt.ancilla_start + rt.ancilla_count = rt.r_runtime.qubits.length)
    (hac : 2 ≤ rt.ancilla_count)
    (ha : a < rt.ancilla_start) (hb : b < rt.ancilla_start)
    (hres : res < rt.ancilla_start) :
    (d_execute_OR rt a b res).1 = true
    ∧ (d_execute_OR rt a b res).2.r_runtime.qubits.getD rt.ancilla_start false
        = !(rt.r_runtime.qubits.getD a false)
    ∧ (d_execute_OR rt a b res).2.r_runtime.qubits.getD (rt.ancilla_start + 1)
        false = !(rt.r_runtime.qubits.getD b false)
    ∧ (∀ i, i < rt.r_runtime.qubits.length → i ≠ res →
        i ≠ rt.ancilla_start → i ≠ rt.ancilla_start + 1 →
        (d_execute_OR rt a b res).2.r_runtime.qubits.getD i false =
          rt.r_runtime.qubits.getD i false) := by
  have hraN : rt.ancilla_start < rt.r_runtime.qubits.length := by omega
  refine ⟨?_, ?_, ?_, ?_⟩
  · rw [d_OR_spec rt a b res hwf hac ha hb hres]
  · rw [d_OR_spec rt a b res hwf hac ha hb hres]
    rw [getD_set_ne _ _ _ _ _ (by omega : rt.ancilla_start ≠ res),
      getD_set_ne _ _ _ _ _ (by omega : rt.ancilla_start ≠ rt.ancilla_start + 1),
      getD_set_self _ _ _ _ hraN]
  · rw [d_OR_spec rt a b res hwf hac ha hb hres]
    rw [getD_set_ne _ _ _ _ _ (by omega : rt.ancilla_start + 1 ≠ res),
      getD_set_self _ _ _ _ (by simp only [List.length_set]; omega)]
  · intro i hi hires hia hib
    rw [d_OR_spec rt a b res hwf hac ha hb hres]
    rw [getD_set_ne _ _ _ _ _ hires, getD_set_ne _ _ _ _ _ hib,
      getD_set_ne _ _ _ _ _ hia]

/-- C4 (witness): the amended theorem applied to the fresh 3+2-bit
runtime with OR(0,1,2). -/
theorem c4_or_ancilla_witness :
    ((d_runtime_init 3 2 0).ancilla_start + (d_runtime_init 3 2 0).ancilla_count
      = (d_runtime_init 3 2 0).r_runtime.qubits.length
      ∧ 2 ≤ (d_runtime_init 3 2 0).ancilla_count)
    ∧ (d_execute_OR (d_runtime_init 3 2 0) 0 1 2).2.r_runtime.qubits.getD
        (d_runtime_init 3 2 0).ancilla_start false =
        !((d_runtime_init 3 2 0).r_runtime.qubits.getD 0 false)
    ∧ (d_execute_OR (d_runtime_init 3 2 0) 0 1 2).2.r_runtime.qubits.getD
        ((d_runtime_init 3 2 0).ancilla_start + 1) false =
        !((d_runtime_init 3 2 0).r_runtime.qubits.getD 1 false) := by
  refine ⟨by decide, ?_, ?_⟩
  · exact (c4_or_ancilla_effect (d_runtime_init 3 2 0) 0 1 2 (by decide)
      (by decide) (by decide) (by decide) (by decide)).2.1
  · exact (c4_or_ancilla_effect (d_runtime_init 3 2 0) 0 1 2 (by decide)
      (by decide) (by decide) (by decide) (by decide)).2.2.1

/-- Helper: get? at an in-range index yields the getD value. -/
theorem get?_eq_some_getD {α : Type} [Inhabited α] (l : List α) (i : Nat)
    (h : i < l.length) : l.get? i = some (l.getD i default) := by
  induction l generalizing i with
  | nil => simp at h
  | cons x xs ih =>
    cases i with
    | zero => rfl
    | succ n => simpa using ih n (by simpa using h)

/-- Helper: dropping at an in-range index peels off the getD value. -/
theorem drop_eq_getD_cons {α : Type} [Inhabited α] (l : List α) (i : Nat)
    (h : i < l.length) : l.drop i = l.getD i default :: l.drop (i + 1) := by
  induction l generalizing i with
  | nil => simp at h
  | cons x xs ih =>
    cases i with
    | zero => rfl
    | succ n => simpa using ih n (by simpa using h)

/-- Helper: setting below the drop point leaves the drop unchanged. -/
theorem drop_set_of_lt {α : Type} (l : List α) (i j : Nat) (a : α)
    (h : i < j) : (l.set i a).drop j = l.drop j := by
  induction l generalizing i j with
  | nil => rfl
  | cons x xs ih =>
    cases i with
    | zero =>
      cases j with
      | zero => omega
      | succ m => rfl
    | succ n =>
      cases j with
      | zero => omega
      | succ m => simpa using ih n m (by omega)

/-- Characterisation of hr_ir_step at an in-range pc. -/
theorem hr_ir_step_spec (rt : HRIR_Runtime)
    (h : rt.program.pc < rt.program.cells.length) :
    hr_ir_step rt = (true, { rt with
      program := { rt.program with
        cells := rt.program.cells.set rt.program.pc
          { rt.program.cells.getD rt.program.pc default with
              executed := true
              result := some "executed" }
        pc := rt.program.pc + 1 }
      steps_executed := rt.steps_executed + 1 }) := by
  simp only [hr_ir_step,
    if_neg (by omega : ¬(rt.program.pc ≥ rt.program.cells.length))]

/-- Characterisation of hr_ir_undo at a positive pc. -/
theorem hr_ir_undo_spec (rt : HRIR_Runtime) (h : rt.program.pc ≠ 0) :
    hr_ir_undo rt = (true, { rt with
      program := { rt.program with
        cells := rt.program.cells.set (rt.program.pc - 1)
          { rt.program.cells.getD (rt.program.pc - 1) default with
              executed := false
              result := none }
        pc := rt.program.pc - 1 }
      steps_executed := rt.steps_executed - 1
      rollbacks := rt.rollbacks + 1 }) := by
  simp only [hr_ir_undo, if_neg h]

/-- The checker loop computes exactly the spec-side fail-fast result,
and when it reports consistency the runtime has executed the whole
program.  Invariant: the runtime's pc equals the loop index and
`remaining` iterations are left. -/
theorem check_loop_eq_spec (effects : List ExpectedSideEffect) :
    ∀ (remaining : Nat) (rt : HRIR_Runtime) (i k ops ver : Nat),
    rt.program.pc = i →
    i + remaining = rt.program.cells.length →
    (check_loop effects remaining rt i k
      { is_consistent := true
        error_message := none
        operations_checked := ops
        side_effects_verified := ver }).1 =
      check_spec_loop (rt.program.cells.drop i) effects k ops ver
    ∧ ((check_loop effects remaining rt i k
      { is_consistent := true
        error_message := none
        operations_checked := ops
        side_effects_verified := ver }).1.is_consistent = true →
      hr_ir_is_complete (check_loop effects remaining rt i k
        { is_consistent := true
          error_message := none
          operations_checked := ops
          side_effects_verified := ver }).2 = true) := by
  intro remaining
  induction remaining with
  | zero =>
    intro rt i k ops ver hpc hlen
    have hdrop : rt.program.cells.drop i = [] :=
      List.drop_eq_nil_of_le (by omega)
    refine ⟨?_, ?_⟩
    · simp only [check_loop, hdrop, check_spec_loop]
    · intro _
      simp only [check_loop, hr_ir_is_complete, ge_iff_le,
        decide_eq_true_eq]
      omega
  | succ m ih =>
    intro rt i k ops ver hpc hlen
    have hi : i < rt.program.cells.length := by omega
    have hge : ¬(i ≥ rt.program.cells.length) := by omega
    -- the first simulated step always succeeds at an in-range pc
    have hstep := hr_ir_step_spec rt (by omega)
    have hstep1 : (hr_ir_step rt).1 = true := by rw [hstep]
    have hpc1 : (hr_ir_step rt).2.program.pc = i + 1 := by
      rw [hstep]; show rt.program.pc + 1 = i + 1; omega
    have hlen1 : (hr_ir_step rt).2.program.cells.length =
        rt.program.cells.length := by
      rw [hstep]
      show (rt.program.cells.set rt.program.pc _).length = _
      rw [List.length_set]
    have hdrop1 : (hr_ir_step rt).2.program.cells.drop (i + 1) =
        rt.program.cells.drop (i + 1) := by
      rw [hstep]
      show (rt.program.cells.set rt.program.pc _).drop (i + 1) = _
      rw [hpc]
      exact drop_set_of_lt _ _ _ _ (by omega)
    -- case on the reversibility of the cell examined this iteration
    by_cases hrev : (rt.program.cells.getD i default).is_reversible = true
    · -- reversible: step, undo, redo all succeed; one pc advance overall
      have hu := hr_ir_undo_spec (hr_ir_step rt).2 (by omega)
      have hu1 : (hr_ir_undo (hr_ir_step rt).2).1 = true := by rw [hu]
      have hpc2 : (hr_ir_undo (hr_ir_step rt).2).2.program.pc = i := by
        rw [hu]; show (hr_ir_step rt).2.program.pc - 1 = i; omega
      have hlen2 : (hr_ir_undo (hr_ir_step rt).2).2.program.cells.length =
          rt.program.cells.length := by
        rw [hu]
        show ((hr_ir_step rt).2.program.cells.set _ _).length = _
        rw [List.length_set, hlen1]
      have hdrop2 : (hr_ir_undo (hr_ir_step rt).2).2.program.cells.drop
          (i + 1) = rt.program.cells.drop (i + 1) := by
        rw [hu]
        show ((hr_ir_step rt).2.program.cells.set
          ((hr_ir_step rt).2.program.pc - 1) _).drop (i + 1) = _
        rw [hpc1]
        rw [drop_set_of_lt _ _ _ _ (by omega)]
        exact hdrop1
      have hs2 := hr_ir_step_spec (hr_ir_undo (hr_ir_step rt).2).2 (by omega)
      have hredo1 : (hr_ir_step (hr_ir_undo (hr_ir_step rt).2).2).1 = true := by
        rw [hs2]
      have hpcF : (hr_ir_step (hr_ir_undo (hr_ir_step rt).2).2).2.program.pc =
          i + 1 := by
        rw [hs2]
        show (hr_ir_undo (hr_ir_step rt).2).2.program.pc + 1 = i + 1
        omega
      have hlenF :
          (hr_ir_step (hr_ir_undo (hr_ir_step rt).2).2).2.program.cells.length
          = rt.program.cells.length := by
        rw [hs2]
        show ((hr_ir_undo (hr_ir_step rt).2).2.program.cells.set _ _).length = _
        rw [List.length_set, hlen2]
      have hdropF :
          (hr_ir_step (hr_ir_undo (hr_ir_step rt).2).2).2.program.cells.drop
          (i + 1) = rt.program.cells.drop (i + 1) := by
        rw [hs2]
        show ((hr_ir_undo (hr_ir_step rt).2).2.program.cells.set
          ((hr_ir_undo (hr_ir_step rt).2).2.program.pc) _).drop (i + 1) = _
        rw [hpc2]
        rw [drop_set_of_lt _ _ _ _ (by omega)]
        exact hdrop2
      have hc1 : ¬((hr_ir_step rt).1 = false) := by simp [hstep1]
      have hc2 : ¬((hr_ir_undo (hr_ir_step rt).2).1 = false) := by simp [hu1]
      have hc3 : ¬((hr_ir_step (hr_ir_undo (hr_ir_step rt).2).2).1 = false) := by
        simp [hredo1]
      have hone : check_loop effects (m + 1) rt i k
          { is_consistent := true
            error_message := none
            operations_checked := ops
            side_effects_verified := ver } =
          check_loop effects m (hr_ir_step (hr_ir_undo (hr_ir_step rt).2).2).2
            (i + 1) k
            { is_consistent := true
              error_message := none
              operations_checked := ops + 1
              side_effects_verified := ver } := by
        simp only [check_loop, if_neg hge, if_pos hrev, if_neg hc1,
          if_neg hc2, if_neg hc3]
      obtain ⟨ihA, ihB⟩ := ih (hr_ir_step (hr_ir_undo (hr_ir_step rt).2).2).2
        (i + 1) k (ops + 1) ver hpcF (by omega)
      refine ⟨?_, ?_⟩
      · rw [hone, ihA, hdropF, drop_eq_getD_cons _ _ hi]
        simp only [check_spec_loop, if_pos hrev]
      · rw [hone]; exact ihB
    · -- irreversible: one step, then comparison with the expected effects
      have hrev2 : (rt.program.cells.getD i default).is_reversible = false := by
        cases hgd : (rt.program.cells.getD i default).is_reversible with
        | false => rfl
        | true => exact absurd hgd hrev
      by_cases hk : k < effects.length
      · by_cases hmatch : ((rt.program.cells.getD i default).opcode ==
            (effects.getD k default).operation) = true
        · by_cases hss : (effects.getD k default).should_succeed = true
          · -- matching operation, declared success: continue
            have hcond : ¬((hr_ir_step rt).1 ≠
                (effects.getD k default).should_succeed) := by
              rw [hstep1, hss]; simp
            have hone : check_loop effects (m + 1) rt i k
                { is_consistent := true
                  error_message := none
                  operations_checked := ops
                  side_effects_verified := ver } =
                check_loop effects m (hr_ir_step rt).2 (i + 1) (k + 1)
                  { is_consistent := true
                    error_message := none
                    operations_checked := ops + 1
                    side_effects_verified := ver + 1 } := by
              simp only [check_loop, if_neg hge, if_neg hrev, if_pos hk,
                if_pos hmatch, if_neg hcond]
            obtain ⟨jA, jB⟩ := ih (hr_ir_step rt).2 (i + 1) (k + 1) (ops + 1)
              (ver + 1) hpc1 (by omega)
            refine ⟨?_, ?_⟩
            · rw [hone, jA, hdrop1, drop_eq_getD_cons _ _ hi]
              simp only [check_spec_loop, if_neg hrev, if_pos hk,
                if_pos hmatch, if_pos hss]
            · rw [hone]; exact jB
          · -- matching operation, declared failure: abort with the
            -- first-failure message
            have hss2 : (effects.getD k default).should_succeed = false := by
              cases hgd : (effects.getD k default).should_succeed with
              | false => rfl
              | true => exact absurd hgd hss
            have hcond : (hr_ir_step rt).1 ≠
                (effects.getD k default).should_succeed := by
              rw [hstep1, hss2]; simp
            have hone : check_loop effects (m + 1) rt i k
                { is_consistent := true
                  error_message := none
                  operations_checked := ops
                  side_effects_verified := ver } =
                ({ is_consistent := false
                   error_message := some "D-term side effect mismatch"
                   operations_checked := ops + 1
                   side_effects_verified := ver + 1 }, (hr_ir_step rt).2) := by
              simp only [check_loop, if_neg hge, if_neg hrev, if_pos hk,
                if_pos hmatch, if_pos hcond]
            refine ⟨?_, ?_⟩
            · rw [hone, drop_eq_getD_cons _ _ hi]
              simp only [check_spec_loop, if_neg hrev, if_pos hk,
                if_pos hmatch]
              rw [if_neg (show ¬((effects.getD k default).should_succeed = true)
                by rw [hss2]; simp)]
            · rw [hone]
              intro hcon
              simp at hcon
        · -- operation name mismatch: warning only, effect consumed,
          -- checking continues
          have hone : check_loop effects (m + 1) rt i k
              { is_consistent := true
                error_message := none
                operations_checked := ops
                side_effects_verified := ver } =
              check_loop effects m (hr_ir_step rt).2 (i + 1) (k + 1)
                { is_consistent := true
                  error_message := none
                  operations_checked := ops + 1
                  side_effects_verified := ver } := by
            simp only [check_loop, if_neg hge, if_neg hrev, if_pos hk,
              if_neg hmatch]
          obtain ⟨jA, jB⟩ := ih (hr_ir_step rt).2 (i + 1) (k + 1) (ops + 1)
            ver hpc1 (by omega)
          refine ⟨?_, ?_⟩
          · rw [hone, jA, hdrop1, drop_eq_getD_cons _ _ hi]
            simp only [check_spec_loop, if_neg hrev, if_pos hk,
              if_neg hmatch]
          · rw [hone]; exact jB
      · -- expected effects exhausted: warning only, checking continues
        have hone : check_loop effects (m + 1) rt i k
            { is_consistent := true
              error_message := none
              operations_checked := ops
              side_effects_verified := ver } =
            check_loop effects m (hr_ir_step rt).2 (i + 1) k
              { is_consistent := true
                error_message := none
                operations_checked := ops + 1
                side_effects_verified := ver } := by
          simp only [check_loop, if_neg hge, if_neg hrev, if_neg hk]
        obtain ⟨jA, jB⟩ := ih (hr_ir_step rt).2 (i + 1) k (ops + 1)
          ver hpc1 (by omega)
        refine ⟨?_, ?_⟩
        · rw [hone, jA, hdrop1, drop_eq_getD_cons _ _ hi]
          simp only [check_spec_loop, if_neg hrev, if_neg hk]
        · rw [hone]; exact jB

/-- C7 (amended): the behavioural consistency check on a program at
execution position 0 computes exactly the fail-fast result described by
check_spec: each irreversible cell is compared with the next expected
effect in order; a step outcome differing from the declared
should_succeed on a cell whose operation matches aborts immediately at
that cell, reporting that first failure ("D-term side effect mismatch")
and checking no further cells; an operation-name mismatch, however, only
consumes the expected effect with a warning and checking continues. -/
theorem c7_checker_matches_fail_fast_spec (program : HRIR_Program)
    (effects : List ExpectedSideEffect) (hpc : program.pc = 0) :
    check_l1_l0_consistency program effects =
      check_spec program.cells effects := by
  obtain ⟨hA, hB⟩ := check_loop_eq_spec effects program.cells.length
    (hr_ir_create_runtime program) 0 0 0 0 hpc (by simp [hr_ir_create_runtime])
  simp only [check_l1_l0_consistency]
  by_cases hcons : (check_loop effects program.cells.length
      (hr_ir_create_runtime program) 0 0
      { is_consistent := true
        error_message := none
        operations_checked := 0
        side_effects_verified := 0 }).1.is_consistent = true
  · rw [if_pos hcons]
    have hcomp := hB hcons
    rw [if_neg (by rw [hcomp]; simp :
      ¬(hr_ir_is_complete (check_loop effects program.cells.length
        (hr_ir_create_runtime program) 0 0
        { is_consistent := true
          error_message := none
          operations_checked := 0
          side_effects_verified := 0 }).2 = false))]
    exact hA
  · rw [if_neg hcons]
    exact hA

/-- C7 (counterexample): an irreversible cell whose operation name does
not match the next expected effect does NOT abort the check: the checker
reports is_consistent = true with no error message (it merely prints a
warning and consumes the effect), contradicting the claim that any
mismatch — wrong operation included — aborts immediately reporting a
failure. -/
theorem c7_op_name_mismatch_does_not_abort :
    check_l1_l0_consistency c7_program c7_effects =
      { is_consistent := true
        error_message := none
        operations_checked := 1
        side_effects_verified := 0 } := by
  rfl

/-- C7 (witness): the amended theorem applied to the concrete one-cell
program (whose pc is 0). -/
theorem c7_fail_fast_witness :
    c7_program.pc = 0
    ∧ check_l1_l0_consistency c7_program c7_effects =
        check_spec c7_program.cells c7_effects :=
  ⟨rfl, c7_checker_matches_fail_fast_spec c7_program c7_effects rfl⟩

/-! ## L3 actor layer (src/l3_turchin.c)

Actors, ring-buffer message queues, the tick scheduler and the handler
interpreter.  The queue's circular head/tail/capacity arithmetic is
modelled faithfully (claim C6 is about its FIFO discipline); slots the C
code leaves uninitialised are `none`.  Message timestamps come from
time(NULL); the model takes the timestamp as an explicit argument (an
external clock input). -/

/-- Helper: getD over a mapped range. -/
theorem getD_map_range {α : Type} (f : Nat → α) (n i : Nat) (h : i < n)
    (d : α) : ((List.range n).map f).getD i d = f i := by
  simp [List.getD_eq_getElem?_getD, List.getElem?_map, List.getElem?_range h]

/-- Helper: two maps over the same range agree when the functions agree
below the bound. -/
theorem map_range_congr {α : Type} (f g : Nat → α) (n : Nat)
    (h : ∀ i, i < n → f i = g i) :
    (List.range n).map f = (List.range n).map g := by
  induction n with
  | zero => rfl
  | succ m ih =>
    rw [List.range_succ, List.map_append, List.map_append,
      ih (fun i hi => h i (by omega))]
    simp [h m (by omega)]

/-- Helper: getD in the left part of an append. -/
theorem getD_append_left {α : Type} (l₁ l₂ : List α) (i : Nat)
    (h : i < l₁.length) (d : α) : (l₁ ++ l₂).getD i d = l₁.getD i d := by
  induction l₁ generalizing i with
  | nil => simp at h
  | cons x xs ih =>
    cases i with
    | zero => rfl
    | succ n => simpa using ih n (by simpa using h)

/-- Helper: circular indices with a common base are injective below the
capacity. -/
theorem mod_shift_inj (cap base x y : Nat) (hx : x < cap) (hy : y < cap)
    (heq : (base + x) % cap = (base + y) % cap) : x = y := by
  have h3 : Nat.ModEq cap (base + x) (base + y) := heq
  have h4 : Nat.ModEq cap x y := Nat.ModEq.add_left_cancel' base h3
  have h5 : x % cap = y % cap := h4
  rwa [Nat.mod_eq_of_lt hx, Nat.mod_eq_of_lt hy] at h5

/-- The slot-write stage of l3_queue_push (everything after the optional
expansion) preserves validity and appends to the FIFO content. -/
theorem l3_queue_push_stage (q : L3_MessageQueue) (hv : QueueValid q)
    (hlt : q.count < q.capacity) (m : L3_Message) :
    QueueValid { q with
      messages := q.messages.set q.tail (some m)
      tail := (q.tail + 1) % q.capacity
      count := q.count + 1 }
    ∧ queueToList { q with
      messages := q.messages.set q.tail (some m)
      tail := (q.tail + 1) % q.capacity
      count := q.count + 1 } = queueToList q ++ [m] := by
  obtain ⟨hcap, hlen, hhead, hcount, htail, hslots⟩ := hv
  have htlt : q.tail < q.capacity := by rw [htail]; exact Nat.mod_lt _ hcap
  have hwrite : ∀ i, i < q.count →
      (q.messages.set q.tail (some m)).getD ((q.head + i) % q.capacity) none
      = q.messages.getD ((q.head + i) % q.capacity) none := by
    intro i hi
    refine getD_set_ne _ _ _ _ _ ?_
    rw [htail]
    intro hcon
    have := mod_shift_inj q.capacity q.head i q.count
      (by omega) (by omega) hcon
    omega
  have hnew : (q.messages.set q.tail (some m)).getD
      ((q.head + q.count) % q.capacity) none = some m := by
    rw [← htail]
    exact getD_set_self _ _ _ _ (by omega)
  refine ⟨⟨hcap, ?_, hhead, by show q.count + 1 ≤ q.capacity; omega, ?_, ?_⟩,
    ?_⟩
  · simpa [List.length_set] using hlen
  · show (q.tail + 1) % q.capacity = (q.head + (q.count + 1)) % q.capacity
    rw [htail, show q.head + (q.count + 1) = q.head + q.count + 1 by omega]
    exact Nat.mod_add_mod _ _ _
  · intro i hi
    have hi' : i < q.count + 1 := hi
    by_cases hic : i = q.count
    · subst hic
      show ((q.messages.set q.tail (some m)).getD
        ((q.head + q.count) % q.capacity) none).isSome = true
      rw [hnew]
      rfl
    · have hi2 : i < q.count := by omega
      show ((q.messages.set q.tail (some m)).getD
        ((q.head + i) % q.capacity) none).isSome = true
      rw [hwrite i hi2]
      exact hslots i hi2
  · show (List.range (q.count + 1)).map _ = _
    rw [List.range_succ, List.map_append]
    congr 1
    · exact map_range_congr _ _ _ (fun i hi => by rw [hwrite i hi])
    · show [((q.messages.set q.tail (some m)).getD
        ((q.head + q.count) % q.capacity) none).getD default] = [m]
      rw [hnew]
      rfl

/-- The expansion stage of l3_queue_push preserves validity and the FIFO
content. -/
theorem l3_queue_expand_spec (q : L3_MessageQueue) (hv : QueueValid q)
    (hfull : q.count ≥ q.capacity) :
    QueueValid (l3_queue_expanded q)
    ∧ queueToList (l3_queue_expanded q) = queueToList q := by
  obtain ⟨hcap, hlen, hhead, hcount, htail, hslots⟩ := hv
  have hslot2 : ∀ i, i < q.count →
      (l3_queue_expanded q).messages.getD
        (((l3_queue_expanded q).head + i) % (l3_queue_expanded q).capacity)
        none
      = q.messages.getD ((q.head + i) % q.capacity) none := by
    intro i hi
    show (((List.range q.count).map _) ++ _).getD
      ((0 + i) % (q.capacity * 2)) none = _
    have hi2 : (0 + i) % (q.capacity * 2) = i := by
      rw [Nat.zero_add, Nat.mod_eq_of_lt (by omega)]
    rw [hi2]
    rw [getD_append_left _ _ _ (by
      simp only [List.length_map, List.length_range]; omega)]
    exact getD_map_range _ _ _ hi _
  constructor
  · refine ⟨by show 0 < q.capacity * 2; omega, ?_,
      by show 0 < q.capacity * 2; omega,
      by show q.count ≤ q.capacity * 2; omega, ?_, ?_⟩
    · show (((List.range q.count).map _)
        ++ List.replicate (q.capacity * 2 - q.count) none).length
        = q.capacity * 2
      rw [List.length_append, List.length_map, List.length_range,
        List.length_replicate]
      omega
    · show q.count = (0 + q.count) % (q.capacity * 2)
      rw [Nat.zero_add, Nat.mod_eq_of_lt (by omega)]
    · intro i hi
      have hi' : i < q.count := hi
      rw [hslot2 i hi']
      exact hslots i hi'
  · show (List.range q.count).map _ = (List.range q.count).map _
    refine map_range_congr _ _ _ (fun i hi => ?_)
    rw [hslot2 i hi]

/-- l3_queue_push preserves validity and appends the new message to the
FIFO content (the strict-FIFO guarantee of the mailbox). -/
theorem l3_queue_push_spec (q : L3_MessageQueue) (hv : QueueValid q)
    (event data : String) (ts : Nat) :
    QueueValid (l3_queue_push q event data ts)
    ∧ queueToList (l3_queue_push q event data ts) =
        queueToList q ++ [{ event := event, data := data, timestamp := ts }] := by
  by_cases hfull : q.count ≥ q.capacity
  · obtain ⟨hv2, ht2⟩ := l3_queue_expand_spec q hv hfull
    have hlt2 : (l3_queue_expanded q).count < (l3_queue_expanded q).capacity := by
      show q.count < q.capacity * 2
      obtain ⟨hcap, _, _, hcount, _, _⟩ := hv
      omega
    obtain ⟨s1, s2⟩ := l3_queue_push_stage _ hv2 hlt2
      { event := event, data := data, timestamp := ts }
    have hpush : l3_queue_push q event data ts = { l3_queue_expanded q with
      messages := (l3_queue_expanded q).messages.set (l3_queue_expanded q).tail
        (some { event := event, data := data, timestamp := ts })
      tail := ((l3_queue_expanded q).tail + 1) % (l3_queue_expanded q).capacity
      count := (l3_queue_expanded q).count + 1 } := by
      simp only [l3_queue_push, if_pos hfull]
    rw [hpush]
    refine ⟨s1, ?_⟩
    rw [s2, ht2]
  · obtain ⟨s1, s2⟩ := l3_queue_push_stage q hv (by omega)
      { event := event, data := data, timestamp := ts }
    have hpush : l3_queue_push q event data ts = { q with
      messages := q.messages.set q.tail
        (some { event := event, data := data, timestamp := ts })
      tail := (q.tail + 1) % q.capacity
      count := q.count + 1 } := by
      simp only [l3_queue_push, if_neg hfull]
    rw [hpush]
    exact ⟨s1, s2⟩

/-- l3_queue_pop on an empty queue returns NULL and leaves the queue
unchanged. -/
theorem l3_queue_pop_empty (q : L3_MessageQueue) (h : q.count = 0) :
    l3_queue_pop q = (none, q) := by
  simp only [l3_queue_pop, if_pos h]

/-- l3_queue_pop on a valid non-empty queue returns the head of the FIFO
content (the earliest enqueued live message), and the remaining queue is
valid with the tail of that content. -/
theorem l3_queue_pop_spec (q : L3_MessageQueue) (hv : QueueValid q)
    (h : q.count ≠ 0) :
    (l3_queue_pop q).1 = (queueToList q).head?
    ∧ QueueValid (l3_queue_pop q).2
    ∧ queueToList (l3_queue_pop q).2 = (queueToList q).tail := by
  obtain ⟨hcap, hlen, hhead, hcount, htail, hslots⟩ := hv
  have hne : ¬(q.count = 0) := h
  have hpop : l3_queue_pop q = (q.messages.getD q.head none,
      { q with
        head := (q.head + 1) % q.capacity
        count := q.count - 1 }) := by
    simp only [l3_queue_pop, if_neg hne]
  obtain ⟨c, hc⟩ : ∃ c, q.count = c + 1 := ⟨q.count - 1, by omega⟩
  have hslot0 : ((q.messages.getD ((q.head + 0) % q.capacity) none).isSome)
      = true := hslots 0 (by omega)
  have hidx0 : (q.head + 0) % q.capacity = q.head := by
    rw [Nat.add_zero, Nat.mod_eq_of_lt hhead]
  have hslot0b : (q.messages.getD q.head none).isSome = true := by
    rw [hidx0] at hslot0
    exact hslot0
  obtain ⟨v, hvv⟩ := Option.isSome_iff_exists.mp hslot0b
  have hhd : (queueToList q).head? = some v := by
    unfold queueToList
    rw [hc, List.range_succ_eq_map, List.map_cons]
    show some ((q.messages.getD ((q.head + 0) % q.capacity) none).getD default)
      = some v
    rw [hidx0, hvv]
    rfl
  have hshift : ∀ i, ((q.head + 1) % q.capacity + i) % q.capacity =
      (q.head + (1 + i)) % q.capacity := by
    intro i
    rw [Nat.mod_add_mod, Nat.add_assoc]
  rw [hpop]
  refine ⟨?_, ⟨hcap, hlen, Nat.mod_lt _ hcap,
    by show q.count - 1 ≤ q.capacity; omega, ?_, ?_⟩, ?_⟩
  · show q.messages.getD q.head none = (queueToList q).head?
    rw [hhd]
    exact hvv
  · show q.tail = ((q.head + 1) % q.capacity + (q.count - 1)) % q.capacity
    rw [hshift, htail]
    congr 1
    omega
  · intro i hi
    have hi' : i < q.count - 1 := hi
    show ((q.messages.getD
      (((q.head + 1) % q.capacity + i) % q.capacity) none).isSome) = true
    rw [hshift]
    exact hslots (1 + i) (by omega)
  · unfold queueToList
    rw [hc]
    rw [List.range_succ_eq_map, List.map_cons, List.tail_cons, List.map_map]
    rw [show c + 1 - 1 = c from rfl]
    refine map_range_congr _ _ _ (fun i hi => ?_)
    show (q.messages.getD (((q.head + 1) % q.capacity + i) % q.capacity)
        none).getD default
      = (q.messages.getD ((q.head + Nat.succ i) % q.capacity) none).getD
        default
    rw [hshift]
    rw [show 1 + i = Nat.succ i by omega]

/-- Helper: filterMap is determined by the function's values on the
list's members. -/
theorem filterMap_congr_mem {α β : Type} (f g : α → Option β) (l : List α)
    (h : ∀ a, a ∈ l → f a = g a) : l.filterMap f = l.filterMap g := by
  induction l with
  | nil => rfl
  | cons x xs ih =>
    rw [List.filterMap_cons, List.filterMap_cons, h x (by simp),
      ih (fun a ha => h a (by simp [ha]))]

/-- Helper: every element of range' s n is at least s. -/
theorem mem_range'_lower (s n j : Nat) (h : j ∈ List.range' s n) : s ≤ j := by
  induction n generalizing s with
  | zero => simp [List.range'] at h
  | succ m ih =>
    rw [show List.range' s (m + 1) = s :: List.range' (s + 1) m from rfl] at h
    rcases List.mem_cons.mp h with h1 | h2
    · omega
    · have := ih (s + 1) h2
      omega

/-- The length of a queue's FIFO content is its count. -/
theorem queueToList_length (q : L3_MessageQueue) :
    (queueToList q).length = q.count := by
  simp [queueToList]

/-- A visit to an actor whose queue is empty does nothing. -/
theorem l3_tick_visit_empty
    (f : L3_ActorRuntime → Nat → String → String → L3_ActorRuntime)
    (rt : L3_ActorRuntime) (i : Nat)
    (h : (rt.message_queues.getD i default).count = 0) :
    l3_tick_visit f rt i = (none, rt) := by
  simp only [l3_tick_visit,
    if_neg (by omega : ¬((rt.message_queues.getD i default).count > 0))]

/-- A visit to an actor with a non-empty valid queue dequeues exactly
the earliest enqueued message of that actor, and (when the handler
effect preserves array lengths and queue validity) the runtime stays
well-formed with the same actor and queue counts. -/
theorem l3_tick_visit_spec
    (f : L3_ActorRuntime → Nat → String → String → L3_ActorRuntime)
    (rt : L3_ActorRuntime) (i : Nat)
    (Hlen : ∀ rt2 j b d, (f rt2 j b d).actors.length = rt2.actors.length ∧
      (f rt2 j b d).message_queues.length = rt2.message_queues.length)
    (Hval : ∀ rt2 j b d, QueuesWF rt2 → QueuesWF (f rt2 j b d))
    (hqa : rt.message_queues.length = rt.actors.length)
    (hwf : QueuesWF rt) (hi : i < rt.actors.length)
    (hc : (rt.message_queues.getD i default).count ≠ 0) :
    (l3_tick_visit f rt i).1 =
      (queueToList (rt.message_queues.getD i default)).head?.map
        (fun m => (i, m))
    ∧ (l3_tick_visit f rt i).2.actors.length = rt.actors.length
    ∧ (l3_tick_visit f rt i).2.message_queues.length =
        rt.message_queues.length
    ∧ QueuesWF (l3_tick_visit f rt i).2 := by
  have hvq : QueueValid (rt.message_queues.getD i default) :=
    hwf i (by omega)
  obtain ⟨p1, p2, p3⟩ := l3_queue_pop_spec _ hvq hc
  obtain ⟨m, hm⟩ : ∃ m,
      (queueToList (rt.message_queues.getD i default)).head? = some m := by
    cases hq : (queueToList (rt.message_queues.getD i default)).head? with
    | none =>
      exfalso
      have h0 : (queueToList (rt.message_queues.getD i default)).length = 0 := by
        rw [List.head?_eq_none_iff.mp hq]
        rfl
      rw [queueToList_length] at h0
      exact hc h0
    | some m => exact ⟨m, rfl⟩
  have hp1 : (l3_queue_pop (rt.message_queues.getD i default)).1 = some m := by
    rw [p1, hm]
  have hvisit : l3_tick_visit f rt i =
      (some (i, m),
        match (rt.actors.getD i default).handlers.find?
            (fun h => h.event_name == m.event) with
        | some handler =>
          f { rt with message_queues := (rt.message_queues.set i
              (l3_queue_pop (rt.message_queues.getD i default)).2) }
            i handler.body_code m.data
        | none =>
          { rt with message_queues := (rt.message_queues.set i
              (l3_queue_pop (rt.message_queues.getD i default)).2) }) := by
    simp only [l3_tick_visit, if_pos (by omega :
      (rt.message_queues.getD i default).count > 0), hp1]
  have hwf1 : QueuesWF { rt with message_queues := (rt.message_queues.set i
      (l3_queue_pop (rt.message_queues.getD i default)).2) } := by
    intro j hj
    have hj' : j < rt.message_queues.length := by
      simpa [List.length_set] using hj
    by_cases hij : j = i
    · subst hij
      show QueueValid ((rt.message_queues.set j _).getD j default)
      rw [getD_set_self _ _ _ _ hj']
      exact p2
    · show QueueValid ((rt.message_queues.set i _).getD j default)
      rw [getD_set_ne _ _ _ _ _ hij]
      exact hwf j hj'
  refine ⟨?_, ?_, ?_, ?_⟩
  · rw [hvisit, hm]
    rfl
  · rw [hvisit]
    cases hfind : (rt.actors.getD i default).handlers.find?
        (fun h => h.event_name == m.event) with
    | some handler =>
      simp only [hfind]
      exact (Hlen _ _ _ _).1
    | none => simp only [hfind]
  · rw [hvisit]
    cases hfind : (rt.actors.getD i default).handlers.find?
        (fun h => h.event_name == m.event) with
    | some handler =>
      simp only [hfind]
      rw [(Hlen _ _ _ _).2]
      simp [List.length_set]
    | none =>
      simp only [hfind]
      simp [List.length_set]
  · rw [hvisit]
    cases hfind : (rt.actors.getD i default).handlers.find?
        (fun h => h.event_name == m.event) with
    | some handler =>
      simp only [hfind]
      exact Hval _ _ _ _ hwf1
    | none =>
      simp only [hfind]
      exact hwf1

/-- The trace of the tick loop from index i: actors are visited in
increasing index order and the dequeued message of each visited actor is
the head of its FIFO content in the runtime on arrival at that actor. -/
theorem l3_tick_aux_trace
    (f : L3_ActorRuntime → Nat → String → String → L3_ActorRuntime)
    (Hlen : ∀ rt2 j b d, (f rt2 j b d).actors.length = rt2.actors.length ∧
      (f rt2 j b d).message_queues.length = rt2.message_queues.length)
    (Hval : ∀ rt2 j b d, QueuesWF rt2 → QueuesWF (f rt2 j b d)) :
    ∀ (fuel i : Nat) (rt : L3_ActorRuntime),
    rt.message_queues.length = rt.actors.length → QueuesWF rt →
    (l3_tick_aux f fuel i rt).1 =
      (List.range' i (min fuel (rt.actors.length - i))).filterMap (fun j =>
        (queueToList ((l3_tick_aux f (j - i) i rt).2.message_queues.getD j
          default)).head?.map (fun m => (j, m))) := by
  intro fuel
  induction fuel with
  | zero =>
    intro i rt hqa hwf
    simp [l3_tick_aux]
  | succ n ih =>
    intro i rt hqa hwf
    by_cases hi : i < rt.actors.length
    · have hunroll : ∀ j, i + 1 ≤ j →
          (l3_tick_aux f (j - i) i rt).2 =
          (l3_tick_aux f (j - (i + 1)) (i + 1) (l3_tick_visit f rt i).2).2 := by
        intro j hj
        rw [show j - i = (j - (i + 1)) + 1 by omega]
        simp only [l3_tick_aux, if_pos hi]
      have hself : (l3_tick_aux f (i - i) i rt).2 = rt := by
        rw [show i - i = 0 by omega]
        rfl
      have hmin : min (n + 1) (rt.actors.length - i) =
          (min n (rt.actors.length - (i + 1))) + 1 := by omega
      by_cases hc : (rt.message_queues.getD i default).count = 0
      · -- empty mailbox: no dequeue for this actor
        have hv := l3_tick_visit_empty f rt i hc
        have hone : l3_tick_aux f (n + 1) i rt = l3_tick_aux f n (i + 1) rt := by
          simp only [l3_tick_aux, if_pos hi, hv]
        have hterm : (queueToList ((l3_tick_aux f (i - i) i rt).2.message_queues.getD
            i default)).head?.map (fun m => ((i, m) : Nat × L3_Message)) = none := by
          rw [hself]
          have h0 : queueToList (rt.message_queues.getD i default) = [] := by
            unfold queueToList
            rw [hc]
            rfl
          rw [h0]
          rfl
        rw [hone, ih (i + 1) rt hqa hwf, hmin]
        rw [show List.range' i ((min n (rt.actors.length - (i + 1))) + 1) =
          i :: List.range' (i + 1) (min n (rt.actors.length - (i + 1))) from rfl]
        rw [List.filterMap_cons]
        simp only [hterm]
        refine filterMap_congr_mem _ _ _ (fun j hj => ?_)
        have hj1 : i + 1 ≤ j := mem_range'_lower _ _ _ hj
        rw [hunroll j hj1, hv]
      · -- non-empty mailbox: the head of the FIFO content is dequeued
        obtain ⟨v1, va, vq, vwf⟩ := l3_tick_visit_spec f rt i Hlen Hval hqa
          hwf hi hc
        obtain ⟨m, hm⟩ : ∃ m,
            (queueToList (rt.message_queues.getD i default)).head? = some m := by
          cases hq : (queueToList (rt.message_queues.getD i default)).head? with
          | none =>
            exfalso
            have h0 : (queueToList (rt.message_queues.getD i default)).length
                = 0 := by
              rw [List.head?_eq_none_iff.mp hq]
              rfl
            rw [queueToList_length] at h0
            exact hc h0
          | some m => exact ⟨m, rfl⟩
        have hv1 : (l3_tick_visit f rt i).1 = some (i, m) := by
          rw [v1, hm]
          rfl
        have hone : l3_tick_aux f (n + 1) i rt =
            ((i, m) :: (l3_tick_aux f n (i + 1) (l3_tick_visit f rt i).2).1,
              (l3_tick_aux f n (i + 1) (l3_tick_visit f rt i).2).2) := by
          simp only [l3_tick_aux, if_pos hi, hv1]
        have hqa2 : (l3_tick_visit f rt i).2.message_queues.length =
            (l3_tick_visit f rt i).2.actors.length := by
          rw [va, vq, hqa]
        have hterm : (queueToList ((l3_tick_aux f (i - i) i rt).2.message_queues.getD
            i default)).head?.map (fun m2 => ((i, m2) : Nat × L3_Message)) =
            some (i, m) := by
          rw [hself, hm]
          rfl
        rw [hone]
        show (i, m) :: (l3_tick_aux f n (i + 1) (l3_tick_visit f rt i).2).1 = _
        rw [ih (i + 1) (l3_tick_visit f rt i).2 hqa2 vwf, hmin]
        rw [show List.range' i ((min n (rt.actors.length - (i + 1))) + 1) =
          i :: List.range' (i + 1) (min n (rt.actors.length - (i + 1))) from rfl]
        rw [List.filterMap_cons]
        simp only [hterm]
        rw [va]
        congr 1
        refine filterMap_congr_mem _ _ _ (fun j hj => ?_)
        have hj1 : i + 1 ≤ j := mem_range'_lower _ _ _ hj
        rw [hunroll j hj1]
    · have hend : rt.actors.length - i = 0 := by omega
      simp [l3_tick_aux, if_neg hi, hend]

/-- C6: a tick visits the actors in spawn order (indices 0, 1, ... of
the actor array, which appends at spawn time) and dequeues at most one
message per actor — exactly one precisely when that actor's mailbox is
non-empty on arrival — always taking the head of the mailbox's FIFO
content, i.e. the message that was enqueued earliest; and pushing onto a
mailbox appends at the end of the FIFO content (strict FIFO within each
actor).  The handler-execution effect is any function that preserves the
actor/queue array lengths and queue validity (l3_execute_handler only
reads and writes actor state and pushes messages, which satisfies
both). -/
theorem c6_tick_round_robin_fifo
    (f : L3_ActorRuntime → Nat → String → String → L3_ActorRuntime)
    (Hlen : ∀ rt2 j b d, (f rt2 j b d).actors.length = rt2.actors.length ∧
      (f rt2 j b d).message_queues.length = rt2.message_queues.length)
    (Hval : ∀ rt2 j b d, QueuesWF rt2 → QueuesWF (f rt2 j b d))
    (rt : L3_ActorRuntime)
    (hqa : rt.message_queues.length = rt.actors.length)
    (hwf : QueuesWF rt) :
    (l3_tick_with f rt).1 =
      (List.range rt.actors.length).filterMap (fun i =>
        (queueToList ((l3_tick_upto f i rt).2.message_queues.getD i
          default)).head?.map (fun m => (i, m)))
    ∧ (∀ (q : L3_MessageQueue) (e d : String) (ts : Nat), QueueValid q →
        queueToList (l3_queue_push q e d ts) =
          queueToList q ++ [{ event := e, data := d, timestamp := ts }]) := by
  constructor
  · have h := l3_tick_aux_trace f Hlen Hval rt.actors.length 0 rt hqa hwf
    rw [Nat.sub_zero, Nat.min_self] at h
    rw [← List.range_eq_range'] at h
    simpa [l3_tick_with, l3_tick_upto, Nat.sub_zero] using h
  · intro q e d ts hv
    exact (l3_queue_push_spec q hv e d ts).2

/-- C6 (witness): the tick theorem applied to the concrete one-actor
runtime with two queued messages and the identity handler effect. -/
theorem c6_tick_witness :
    ((∀ rt2 j b d, (c6_f rt2 j b d).actors.length = rt2.actors.length ∧
        (c6_f rt2 j b d).message_queues.length = rt2.message_queues.length)
      ∧ (∀ rt2 j b d, QueuesWF rt2 → QueuesWF (c6_f rt2 j b d))
      ∧ c6_rt.message_queues.length = c6_rt.actors.length
      ∧ QueuesWF c6_rt)
    ∧ (l3_tick_with c6_f c6_rt).1 =
      (List.range c6_rt.actors.length).filterMap (fun i =>
        (queueToList ((l3_tick_upto c6_f i c6_rt).2.message_queues.getD i
          default)).head?.map (fun m => (i, m))) := by
  refine ⟨⟨fun _ _ _ _ => ⟨rfl, rfl⟩, fun _ _ _ _ h => h, by decide,
    by decide⟩, ?_⟩
  exact (c6_tick_round_robin_fifo c6_f (fun _ _ _ _ => ⟨rfl, rfl⟩)
    (fun _ _ _ _ h => h) c6_rt (by decide) (by decide)).1

/-! ## L3 handler interpreter (src/l3_turchin.c lines 672-1283)

The execution context carries the actor's state map (aliased with the
actor in C; written back after the handler here), the message data, the
runtime (for sends) and the handler-local variables.

The arithmetic branch of l3_evaluate_expression substitutes state/local
references into the text and pipes it through the external `bc`
calculator via popen (the "undefined-contract shortcut" of spec §9); its
substitution loop also need not terminate when a state value itself
contains "state.".  That whole branch (source lines 756-847) is
therefore modelled as an oracle parameter `arith`, returning the line
read back from bc, or none when the pipe or read fails, in which case
evaluation falls through to the remaining cases exactly as in C.

Message sends from handler bodies use timestamp 0: the time(NULL) clock
is an external input and no property proved here depends on it. -/

/-- An always-true while loop started at iteration count it runs until
the counter reaches the cap. -/
theorem l3_run_while_cap
    (arith : String → L3_ExecutionContext → Option String)
    (lines : List String) (ws we : Nat) (windent : Option Nat)
    (condition : String)
    (hcond : ∀ c, l3_evaluate_condition arith condition c = true) :
    ∀ n ctx it, it + n = 10000 →
      (l3_run_while arith lines ws we windent condition ctx it).2 = 10000 := by
  intro n
  induction n with
  | zero =>
    intro ctx it hn
    rw [l3_run_while.eq_def]
    rw [dif_neg (by omega)]
    omega
  | succ n ih =>
    intro ctx it hn
    rw [l3_run_while.eq_def]
    rw [dif_pos ⟨hcond ctx, by omega⟩]
    exact ih _ (it + 1) (by omega)

/-- C8: for every while loop whose condition evaluates to true in every
execution context, the interpreter's loop (l3_run_while, modelling
source lines 1147-1156) leaves the loop with the iteration counter
exactly at the cap max_iterations = 10000: the body ran exactly 10000
times and control then continues after the loop.  Handler execution
terminates unconditionally in this model: the interpreter is a total
function whose only unbounded construct, the while statement, is bounded
by this cap. -/
theorem c8_always_true_while_hits_cap
    (arith : String → L3_ExecutionContext → Option String)
    (lines : List String) (ws we : Nat) (windent : Option Nat)
    (condition : String) (ctx : L3_ExecutionContext)
    (hcond : ∀ c, l3_evaluate_condition arith condition c = true) :
    (l3_run_while arith lines ws we windent condition ctx 0).2 = 10000 :=
  l3_run_while_cap arith lines ws we windent condition hcond 10000 ctx 0 rfl

/-- C8 witness: the loop `while true` over an empty body hits the cap. -/
theorem c8_cap_witness :
    (l3_run_while c8_arith [] 0 0 none "true" c8_ctx 0).2 = 10000 :=
  c8_always_true_while_hits_cap c8_arith [] 0 0 none "true" c8_ctx
    (fun _ => rfl)

/-- C9 counterexample: "abc" and "def" are non-numeric and differ as
strings, yet "abc == def" evaluates to true and "abc != def" to false:
atof maps both operands to 0, and equality ORs the numeric comparison
with the string comparison (source line 899) instead of falling back to
it, while inequality ANDs them (line 900). -/
theorem c9_string_fallback_counterexample :
    l3_evaluate_condition c9_arith "abc == def" c9_ctx = true ∧
    l3_evaluate_condition c9_arith "abc != def" c9_ctx = false := by
  have ha : cAtof "abc" =
      (1 * (((0 : Nat) : ℚ) + ((0 : Nat) : ℚ) / (10 : ℚ) ^ (0 : Nat)))
        * (10 : ℚ) ^ ((0 : Int)) := rfl
  have hb : cAtof "def" =
      (1 * (((0 : Nat) : ℚ) + ((0 : Nat) : ℚ) / (10 : ℚ) ^ (0 : Nat)))
        * (10 : ℚ) ^ ((0 : Int)) := rfl
  constructor
  · have hstep : l3_evaluate_condition c9_arith "abc == def" c9_ctx =
        (decide (cAtof "abc" = cAtof "def") || ("abc" == "def")) := rfl
    rw [hstep, ha, hb]
    simp
  · have hstep : l3_evaluate_condition c9_arith "abc != def" c9_ctx =
        (decide (cAtof "abc" ≠ cAtof "def") && !("abc" == "def")) := rfl
    rw [hstep, ha, hb]
    simp

/-- C9 (amended): a condition that splits as X == Y is true iff the
evaluated operands are equal numerically (by atof) OR equal as strings;
a condition that splits as X != Y is true iff they differ numerically
AND differ as strings.  String comparison widens numeric equality rather
than replacing it for non-numeric operands: two distinct non-numeric
operands both atof to 0 and so always satisfy ==. -/
theorem c9_equality_numeric_or_string
    (arith : String → L3_ExecutionContext → Option String)
    (condition : String) (ctx : L3_ExecutionContext) (l r : String) :
    (l3_find_comparison (cTrim condition) = some ("==", l, r) →
      (l3_evaluate_condition arith condition ctx = true ↔
        (cAtof (l3_evaluate_expression arith l ctx) =
            cAtof (l3_evaluate_expression arith r ctx) ∨
          l3_evaluate_expression arith l ctx =
            l3_evaluate_expression arith r ctx))) ∧
    (l3_find_comparison (cTrim condition) = some ("!=", l, r) →
      (l3_evaluate_condition arith condition ctx = true ↔
        (cAtof (l3_evaluate_expression arith l ctx) ≠
            cAtof (l3_evaluate_expression arith r ctx) ∧
          l3_evaluate_expression arith l ctx ≠
            l3_evaluate_expression arith r ctx))) := by
  constructor <;> intro heq <;>
    simp [l3_evaluate_condition, heq, Bool.or_eq_true, Bool.and_eq_true,
      decide_eq_true_eq]

/-- C9 witness: the amended equality rule applied to "x == y", true
because both non-numeric operands atof to 0. -/
theorem c9_equality_witness :
    l3_evaluate_condition c9_arith "x == y" c9_ctx = true :=
  ((c9_equality_numeric_or_string c9_arith "x == y" c9_ctx "x" "y").1
      (by decide)).mpr
    (Or.inl (by
      show cAtof "x" = cAtof "y"
      have h1 : cAtof "x" =
          (1 * (((0 : Nat) : ℚ) + ((0 : Nat) : ℚ) / (10 : ℚ) ^ (0 : Nat)))
            * (10 : ℚ) ^ ((0 : Int)) := rfl
      have h2 : cAtof "y" =
          (1 * (((0 : Nat) : ℚ) + ((0 : Nat) : ℚ) / (10 : ℚ) ^ (0 : Nat)))
            * (10 : ℚ) ^ ((0 : Int)) := rfl
      rw [h1, h2]))
